import Mathlib

/-!
Verification development for the machine-manager coordination server.

The registry data model and its operations are shallowly embedded from the
two registry variants in the repository and from the RPC dispatcher:

- namespace `SR`     embeds `src/src/session_registry.py` (condition-variable
  check-in rendezvous with a 5s timeout, explicit `== None` snapshot test,
  `run_session` works on a private copy of the cycle list);
- namespace `Legacy` embeds `src/session_registry.py` (event-based check-in
  without timeout, truthiness snapshot test, `run_session` pops from the
  caller-supplied cycle list);
- namespace `MS`     embeds the job dispatcher of `src/manager_server.py`.

External worker interactions (the `utils.*` remote calls) have no registry
code under `src/` beyond their call sites; each call is recorded as an emitted
event, and the few `utils` functions that do touch registry state are modelled
from the spec and marked as such in their doc comments.  Check-in arrivals and
timeouts are supplied by an environment oracle (`CheckinEvent` list) carried in
the state.
-/

/-- Worker-facing calls made through `utils`; the embedding records each call
as an event so that theorems can speak about which path an operation took. -/
inductive Ev where
  | newServer (sid : Nat)
  | newMachine (sid : Nat)
  | getHash (sid : Nat)
  | runMachine (sid c : Nat)
  | stepMachine (sid : Nat)
  | snapshotMachine (sid : Nat)
  | rollbackMachine (sid : Nat)
  | shutdownServer (sid : Nat)
  | killSession (sid : Nat)
  | readMem (sid c : Nat)
  | writeMem (sid c : Nat)
  | getProof (sid c : Nat)
deriving DecidableEq, Repr

/-- One entry of the session registry (`CartesiSession.__init__`).  The
wall-clock field `updated_at` and the fields `app_progress` and `halt_cycle`
are never read by any embedded operation and are omitted.  Locks and the
check-in condition are represented by the sequential execution order of the
embedding. -/
structure CartesiSession where
  id : Nat
  address : Option Nat
  cycle : Nat
  snapshot_cycle : Option Nat
  creation_machine_req : Option Nat
deriving DecidableEq, Repr

/-- The registry dict, as an association list from session id to session. -/
abbrev Registry := List (Nat × CartesiSession)

def regFind : Registry → Nat → Option CartesiSession
  | [], _ => none
  | (k, s) :: r, i => if k = i then some s else regFind r i

def regSet : Registry → Nat → CartesiSession → Registry
  | [], i, s => [(i, s)]
  | (k, t) :: r, i, s => if k = i then (i, s) :: r else (k, t) :: regSet r i s

def regErase : Registry → Nat → Registry
  | [], _ => []
  | (k, t) :: r, i => if k = i then regErase r i else (k, t) :: regErase r i

def updSession : Registry → Nat → (CartesiSession → CartesiSession) → Registry
  | [], _, _ => []
  | (k, t) :: r, i, f => if k = i then (k, f t) :: r else (k, t) :: updSession r i f

/-- Environment oracle entry for one blocking wait on the check-in rendezvous:
either a worker check-in carrying its new address arrives in time, or no
check-in arrives within the wait (a timeout for the `SR` variant, an infinite
block for the event-based `Legacy` variant). -/
inductive CheckinEvent where
  | timeout
  | checkin (a : Nat)
deriving DecidableEq, Repr

/-- Global registry state: the registry map, the oracle of pending check-in
events, and the trace of worker-facing calls made so far. -/
structure St where
  reg : Registry
  env : List CheckinEvent
  trace : List Ev
deriving DecidableEq, Repr

def emit (st : St) (e : Ev) : St := { st with trace := st.trace ++ [e] }

def upd (st : St) (i : Nat) (f : CartesiSession → CartesiSession) : St :=
  { st with reg := updSession st.reg i f }

/-- Exceptions raised by the embedded code.  `KeyError`, `IndexError` and
`TypeError` are the Python built-ins reachable in the sources; `Blocked` is the
distinguished outcome of the Legacy event wait when no check-in ever arrives
(that wait has no timeout, so the call never returns). -/
inductive Err where
  | SessionIdException
  | AddressException
  | RollbackException
  | CheckinException
  | CycleException
  | KeyError
  | IndexError
  | TypeError
  | Blocked
deriving DecidableEq, Repr

namespace SR

/-- CHECKIN_WAIT_TIMEOUT_SECONDS = 5.0 in src/src/session_registry.py. -/
def CHECKIN_WAIT_TIMEOUT_SECONDS : Nat := 5

/-- Embeds `kill_session`: pkill of every worker subprocess of the session. -/
def kill_session (i : Nat) (st : St) : St := emit st (.killSession i)

/-- Embeds `_remove_session`: kill the workers, then delete the registry entry. -/
def _remove_session (i : Nat) (st : St) : St :=
  let st1 := kill_session i st
  { st1 with reg := regErase st1.reg i }

/-- Embeds the loop `while True: self._wait_for_checkin(...); if address: break`
common to server creation, snapshot and rollback.  A `.checkin a` oracle event
is a check-in arriving within CHECKIN_WAIT_TIMEOUT_SECONDS; its handler is
modelled from the spec (the check-in service code is not under src/): per
section 4.3 it sets the session address and signals the condition, so the loop
predicate `address is set` holds and the loop exits.  `.timeout` (or an
exhausted oracle) is the 5-second timeout of `_wait_for_checkin`: the session
is killed and removed and `CheckinException` is raised.  Waiting on a session
that is not in the registry dict would raise a Python `KeyError`. -/
def wait_until_address (i : Nat) (st : St) : St × Except Err Unit :=
  match regFind st.reg i with
  | none => (st, .error .KeyError)
  | some _ =>
    match st.env with
    | [] => (_remove_session i st, .error .CheckinException)
    | .timeout :: er => (_remove_session i { st with env := er }, .error .CheckinException)
    | .checkin a :: er =>
        (upd { st with env := er } i (fun s => { s with address := some a }), .ok ())

/-- Embeds `register_session`: under the global lock, refuse an id already in
use unless force is set, otherwise (re)insert a fresh `CartesiSession`. -/
def register_session (i : Nat) (force : Bool) (st : St) : St × Except Err Unit :=
  match regFind st.reg i, force with
  | some _, false => (st, .error .SessionIdException)
  | _, _ =>
      let fresh : CartesiSession :=
        { id := i, address := none, cycle := 0, snapshot_cycle := none,
          creation_machine_req := none }
      ({ st with reg := regSet st.reg i fresh }, .ok ())

/-- Embeds `create_new_cartesi_machine_server`: spawn a worker and block on the
check-in rendezvous until its address is communicated. -/
def create_new_cartesi_machine_server (i : Nat) (st : St) : St × Except Err Unit :=
  match regFind st.reg i with
  | none => (st, .error .SessionIdException)
  | some s =>
    if s.address.isSome then (st, .error .AddressException)
    else
      wait_until_address i
        (upd (emit st (.newServer i)) i (fun t => { t with address := none }))

/-- Embeds `create_machine`: issue machine creation to the worker and save the
creation request on the registry entry. -/
def create_machine (i : Nat) (req : Option Nat) (st : St) : St × Except Err Unit :=
  match regFind st.reg i with
  | none => (st, .error .SessionIdException)
  | some s =>
    if s.address.isNone then (st, .error .AddressException)
    else
      (upd (emit st (.newMachine i)) i (fun t => { t with creation_machine_req := req }), .ok ())

/-- Embeds `get_machine_root_hash`.  The hash bytes come from the external
worker (out of scope, spec section 1); the value is modelled as an opaque
token. -/
def get_machine_root_hash (i : Nat) (st : St) : St × Except Err Nat :=
  match regFind st.reg i with
  | none => (st, .error .SessionIdException)
  | some s =>
    if s.address.isNone then (st, .error .AddressException)
    else (emit st (.getHash i), .ok 0)

/-- Embeds `snapshot_machine`: request the snapshot, clear the address, block
on the check-in of the replacement worker, then commit
`snapshot_cycle := cycle` under the global lock. -/
def snapshot_machine (i : Nat) (st : St) : St × Except Err Unit :=
  match regFind st.reg i with
  | none => (st, .error .SessionIdException)
  | some s =>
    if s.address.isNone then (st, .error .AddressException)
    else
      match wait_until_address i
          (upd (emit st (.snapshotMachine i)) i (fun t => { t with address := none })) with
      | (st3, .error e) => (st3, .error e)
      | (st3, .ok _) =>
          (upd st3 i (fun t => { t with snapshot_cycle := some t.cycle }), .ok ())

/-- Embeds `rollback_machine`: refuse when `snapshot_cycle == None`, otherwise
request the rollback, clear the address, block on the check-in, then commit
`cycle := snapshot_cycle; snapshot_cycle := None`. -/
def rollback_machine (i : Nat) (st : St) : St × Except Err Unit :=
  match regFind st.reg i with
  | none => (st, .error .SessionIdException)
  | some s =>
    if s.address.isNone then (st, .error .AddressException)
    else if s.snapshot_cycle = none then (st, .error .RollbackException)
    else
      match wait_until_address i
          (upd (emit st (.rollbackMachine i)) i (fun t => { t with address := none })) with
      | (st3, .error e) => (st3, .error e)
      | (st3, .ok _) =>
          (upd st3 i (fun t =>
            { t with cycle := t.snapshot_cycle.getD t.cycle, snapshot_cycle := none }), .ok ())

/-- Embeds `recreate_machine`: shut the old worker down if any, zero the
session data, spawn a fresh worker and replay the saved creation request. -/
def recreate_machine (i : Nat) (st : St) : St × Except Err Unit :=
  match regFind st.reg i with
  | none => (st, .error .SessionIdException)
  | some s =>
    match create_new_cartesi_machine_server i
        (upd (if s.address.isSome then emit st (.shutdownServer i) else st) i
          (fun t => { t with address := none, cycle := 0, snapshot_cycle := none })) with
    | (st3, .error e) => (st3, .error e)
    | (st3, .ok _) =>
        match regFind st3.reg i with
        | none => (st3, .error .KeyError)
        | some t => create_machine i t.creation_machine_req st3

/-- Modelled from the spec: `utils.run_machine(session_id, registry[sid], c)`
is not under src/ and in this variant receives the whole session object; per
the section 4.1 decision table (advance forward: call worker.run(c), set
cycle to c) it drives the worker to cycle `c` and leaves the session cycle
equal to `c`.  The worker run summary is opaque and modelled by `c`. -/
def run_machine (i c : Nat) (st : St) : St × Nat :=
  (upd (emit st (.runMachine i c)) i (fun t => { t with cycle := c }), c)

/-- Embeds `run_and_update_registry_cycle`: after the id and address checks it
delegates to `utils.run_machine` (see `run_machine`). -/
def run_and_update_registry_cycle (i c : Nat) (st : St) : St × Except Err Nat :=
  match regFind st.reg i with
  | none => (st, .error .SessionIdException)
  | some s =>
    if s.address.isNone then (st, .error .AddressException)
    else
      match run_machine i c st with
      | (st1, v) => (st1, .ok v)

/-- Embeds `step_and_update_registry_cycle`: step the worker one instruction
and increment the session cycle.  The access log is opaque. -/
def step_and_update_registry_cycle (i : Nat) (st : St) : St × Except Err Nat :=
  match regFind st.reg i with
  | none => (st, .error .SessionIdException)
  | some s =>
    if s.address.isNone then (st, .error .AddressException)
    else
      (upd (emit st (.stepMachine i)) i (fun t => { t with cycle := t.cycle + 1 }), .ok 0)

/-- Embeds `run_machine_to_desired_cyle` (source spelling kept): when the
current cycle is past the target, restore state by rollback when a snapshot at
or before the target exists and by recreate otherwise, then run forward. -/
def run_machine_to_desired_cyle (i c : Nat) (st : St) : St × Except Err Nat :=
  match regFind st.reg i with
  | none => (st, .error .SessionIdException)
  | some s =>
    if s.address.isNone then (st, .error .AddressException)
    else
      match ((if c < s.cycle then
          match s.snapshot_cycle with
          | some k => if k ≤ c then rollback_machine i st else recreate_machine i st
          | none => recreate_machine i st
        else (st, .ok ())) : St × Except Err Unit) with
      | (st1, .error e) => (st1, .error e)
      | (st1, .ok _) => run_and_update_registry_cycle i c st1

/-- Embeds `new_session`: with force, shut an existing worker down first; then
register, spawn the worker, create the machine, take the initial hash and
snapshot at cycle 0. -/
def new_session (i req : Nat) (force : Bool) (st : St) : St × Except Err Nat :=
  match register_session i force
      (if force then
        match regFind st.reg i with
        | some s => if s.address.isSome then emit st (.shutdownServer i) else st
        | none => st
      else st) with
  | (st1, .error e) => (st1, .error e)
  | (st1, .ok _) =>
    match create_new_cartesi_machine_server i st1 with
    | (st2, .error e) => (st2, .error e)
    | (st2, .ok _) =>
      match create_machine i (some req) st2 with
      | (st3, .error e) => (st3, .error e)
      | (st3, .ok _) =>
        match get_machine_root_hash i st3 with
        | (st4, .error e) => (st4, .error e)
        | (st4, .ok h) =>
          match snapshot_machine i st4 with
          | (st5, .error e) => (st5, .error e)
          | (st5, .ok _) => (st5, .ok h)

/-- Result of `utils.make_session_run_result`: one run summary and one root
hash per requested cycle. -/
structure SessionRunResult where
  summaries : List Nat
  hashes : List Nat
deriving DecidableEq, Repr

/-- Embeds the `for c in desired_cycles` tail loop of `run_session`. -/
def run_loop (i : Nat) : List Nat → St → St × Except Err (List Nat × List Nat)
  | [], st => (st, .ok ([], []))
  | c :: cs, st =>
    match run_and_update_registry_cycle i c st with
    | (st1, .error e) => (st1, .error e)
    | (st1, .ok summary) =>
      match get_machine_root_hash i st1 with
      | (st2, .error e) => (st2, .error e)
      | (st2, .ok h) =>
        match run_loop i cs st2 with
        | (st3, .error e) => (st3, .error e)
        | (st3, .ok (ss, hs)) => (st3, .ok (summary :: ss, h :: hs))

/-- Embeds `run_session`.  The middle component of the result is the content of
the caller-supplied `final_cycles` list object at the moment the call returns
or raises: this variant copies it (`desired_cycles = [c for c in final_cycles]`)
and pops only from the copy, so the caller object is returned as passed on
every path.  `pop(0)` on an empty copy raises `IndexError`. -/
def run_session (i : Nat) (final_cycles : List Nat) (st : St) :
    St × List Nat × Except Err SessionRunResult :=
  match regFind st.reg i with
  | none => (st, final_cycles, .error .SessionIdException)
  | some s =>
    if s.address.isNone then (st, final_cycles, .error .AddressException)
    else
      match final_cycles.map (fun c => c) with
      | [] => (st, final_cycles, .error .IndexError)
      | first_c :: rest =>
        match run_machine_to_desired_cyle i first_c st with
        | (st1, .error e) => (st1, final_cycles, .error e)
        | (st1, .ok s1) =>
          match snapshot_machine i st1 with
          | (st2, .error e) => (st2, final_cycles, .error e)
          | (st2, .ok _) =>
            match get_machine_root_hash i st2 with
            | (st3, .error e) => (st3, final_cycles, .error e)
            | (st3, .ok h1) =>
              match run_loop i rest st3 with
              | (st4, .error e) => (st4, final_cycles, .error e)
              | (st4, .ok (ss, hs)) =>
                (st4, final_cycles, .ok ⟨s1 :: ss, h1 :: hs⟩)

/-- Embeds `step_session`: seek to the requested initial cycle when needed,
then step once. -/
def step_session (i initial : Nat) (st : St) : St × Except Err Nat :=
  match regFind st.reg i with
  | none => (st, .error .SessionIdException)
  | some s =>
    if s.address.isNone then (st, .error .AddressException)
    else
      match ((if s.cycle ≠ initial then run_machine_to_desired_cyle i initial st
        else (st, .ok 0)) : St × Except Err Nat) with
      | (st1, .error e) => (st1, .error e)
      | (st1, .ok _) => step_and_update_registry_cycle i st1

/-- Embeds `session_read_mem`: seek to the requested cycle when needed, then
read memory through the worker (result opaque). -/
def session_read_mem (i c : Nat) (st : St) : St × Except Err Nat :=
  match regFind st.reg i with
  | none => (st, .error .SessionIdException)
  | some s =>
    if s.address.isNone then (st, .error .AddressException)
    else
      match ((if s.cycle ≠ c then run_machine_to_desired_cyle i c st
        else (st, .ok 0)) : St × Except Err Nat) with
      | (st1, .error e) => (st1, .error e)
      | (st1, .ok _) => (emit st1 (.readMem i c), .ok 0)

/-- Embeds `session_write_mem`: seek to the requested cycle when needed, then
write memory through the worker. -/
def session_write_mem (i c : Nat) (st : St) : St × Except Err Nat :=
  match regFind st.reg i with
  | none => (st, .error .SessionIdException)
  | some s =>
    if s.address.isNone then (st, .error .AddressException)
    else
      match ((if s.cycle ≠ c then run_machine_to_desired_cyle i c st
        else (st, .ok 0)) : St × Except Err Nat) with
      | (st1, .error e) => (st1, .error e)
      | (st1, .ok _) => (emit st1 (.writeMem i c), .ok 0)

/-- Embeds `session_get_proof`: seek to the requested cycle when needed, then
ask the worker for the proof (result opaque). -/
def session_get_proof (i c : Nat) (st : St) : St × Except Err Nat :=
  match regFind st.reg i with
  | none => (st, .error .SessionIdException)
  | some s =>
    if s.address.isNone then (st, .error .AddressException)
    else
      match ((if s.cycle ≠ c then run_machine_to_desired_cyle i c st
        else (st, .ok 0)) : St × Except Err Nat) with
      | (st1, .error e) => (st1, .error e)
      | (st1, .ok _) => (emit st1 (.getProof i c), .ok 0)

end SR

namespace Utils

/-- Modelled from the spec: `utils.validate_cycles`, called by the SessionRun
and SessionStep RPC handlers, is not under src/.  Per section 7 a `CycleError`
is "bad cycle list (not ascending, exceeds max, negative)" and per section 8 a
run with an empty cycle list is a `CycleError`; cycles are protobuf uint64
values, so negativity cannot arise in the model. -/
def UINT64_MAX : Nat := 2 ^ 64 - 1

/-- Strict ascension check of a cycle list (c1 < c2 < ... < cn). -/
def ascending : List Nat → Bool
  | [] => true
  | [_] => true
  | a :: b :: r => a < b && ascending (b :: r)

/-- Modelled from the spec: see `Utils.UINT64_MAX`. -/
def validate_cycles (cs : List Nat) : Except Err Unit :=
  if cs.isEmpty then .error .CycleException
  else if !(ascending cs) then .error .CycleException
  else if cs.any (fun c => UINT64_MAX < c) then .error .CycleException
  else .ok ()

end Utils

namespace SR

/-- One externally observable registry operation, at the granularity of the
RPC handlers in `manager_server.py` (SessionRun and SessionStep validate their
cycle arguments through `utils.validate_cycles` before dispatching; the
snapshot, rollback and recreate primitives are the internal operations of the
registry). -/
inductive Op where
  | newOp (sid req : Nat) (force : Bool)
  | runOp (sid : Nat) (cs : List Nat)
  | stepOp (sid initial : Nat)
  | readOp (sid c : Nat)
  | writeOp (sid c : Nat)
  | proofOp (sid c : Nat)
  | snapshotOp (sid : Nat)
  | rollbackOp (sid : Nat)
  | recreateOp (sid : Nat)
deriving DecidableEq, Repr

/-- Applies one operation to the registry state, discarding the returned
payload (the state, including the error or success outcome path taken, is what
the invariant claims quantify over). -/
def applyOp : Op → St → St × Except Err Unit
  | .newOp i req force, st =>
      ((new_session i req force st).1, (new_session i req force st).2.map fun _ => ())
  | .runOp i cs, st =>
      match Utils.validate_cycles cs with
      | .error e => (st, .error e)
      | .ok _ =>
          ((run_session i cs st).1, (run_session i cs st).2.2.map fun _ => ())
  | .stepOp i initial, st =>
      match Utils.validate_cycles [initial] with
      | .error e => (st, .error e)
      | .ok _ =>
          ((step_session i initial st).1, (step_session i initial st).2.map fun _ => ())
  | .readOp i c, st =>
      ((session_read_mem i c st).1, (session_read_mem i c st).2.map fun _ => ())
  | .writeOp i c, st =>
      ((session_write_mem i c st).1, (session_write_mem i c st).2.map fun _ => ())
  | .proofOp i c, st =>
      ((session_get_proof i c st).1, (session_get_proof i c st).2.map fun _ => ())
  | .snapshotOp i, st => snapshot_machine i st
  | .rollbackOp i, st => rollback_machine i st
  | .recreateOp i, st => recreate_machine i st

/-- The snapshot-ordering invariant of spec section 3: whenever both are set,
`snapshot_cycle` is at most `cycle`, for every session in the registry. -/
def snapInv (st : St) : Prop :=
  ∀ i s, regFind st.reg i = some s → ∀ k, s.snapshot_cycle = some k → k ≤ s.cycle

/-- Executable check of the snapshot-ordering invariant over every registry
entry, used to establish `snapInv` on concrete states. -/
def snapInvB (r : Registry) : Bool :=
  r.all fun p =>
    match p.2.snapshot_cycle with
    | none => true
    | some k => decide (k ≤ p.2.cycle)

end SR

namespace Legacy

/-- Embeds `wait_for_session_address_communication` of the legacy variant
(src/session_registry.py): an `Event.wait()` with no timeout.  A `.checkin a`
oracle event is the new worker communicating its address, whose handler
(`register_address_for_session`) sets the session address and sets the event;
the wait then clears the event.  With no check-in the call never returns,
which the model represents by the distinguished `Blocked` outcome. -/
def wait_for_session_address_communication (i : Nat) (st : St) : St × Except Err Unit :=
  match regFind st.reg i with
  | none => (st, .error .SessionIdException)
  | some _ =>
    match st.env with
    | [] => (st, .error .Blocked)
    | .timeout :: er => ({ st with env := er }, .error .Blocked)
    | .checkin a :: er =>
        (upd { st with env := er } i (fun s => { s with address := some a }), .ok ())

/-- Embeds the legacy `create_new_cartesi_machine_server`: spawn the worker,
then wait for it to communicate its address. -/
def create_new_cartesi_machine_server (i : Nat) (st : St) : St × Except Err Unit :=
  match regFind st.reg i with
  | none => (st, .error .SessionIdException)
  | some s =>
    if s.address.isSome then (st, .error .AddressException)
    else
      wait_for_session_address_communication i (emit st (.newServer i))

/-- Embeds the legacy `create_machine`. -/
def create_machine (i : Nat) (req : Option Nat) (st : St) : St × Except Err Unit :=
  match regFind st.reg i with
  | none => (st, .error .SessionIdException)
  | some s =>
    if s.address.isNone then (st, .error .AddressException)
    else
      (upd (emit st (.newMachine i)) i (fun t => { t with creation_machine_req := req }), .ok ())

/-- Embeds the legacy `get_machine_root_hash` (hash value opaque). -/
def get_machine_root_hash (i : Nat) (st : St) : St × Except Err Nat :=
  match regFind st.reg i with
  | none => (st, .error .SessionIdException)
  | some s =>
    if s.address.isNone then (st, .error .AddressException)
    else (emit st (.getHash i), .ok 0)

/-- Embeds the legacy `snapshot_machine`: note it commits
`snapshot_cycle := cycle` before waiting for the replacement worker, and it
does not clear the address first. -/
def snapshot_machine (i : Nat) (st : St) : St × Except Err Unit :=
  match regFind st.reg i with
  | none => (st, .error .SessionIdException)
  | some s =>
    if s.address.isNone then (st, .error .AddressException)
    else
      wait_for_session_address_communication i
        (upd (emit st (.snapshotMachine i)) i (fun t => { t with snapshot_cycle := some t.cycle }))

/-- Embeds the legacy `rollback_machine`.  Its guard is the Python truthiness
test `if (not self.registry[session_id].snapshot_cycle)`, which holds both for
`None` and for a snapshot cycle equal to 0. -/
def rollback_machine (i : Nat) (st : St) : St × Except Err Unit :=
  match regFind st.reg i with
  | none => (st, .error .SessionIdException)
  | some s =>
    if s.address.isNone then (st, .error .AddressException)
    else if s.snapshot_cycle = none ∨ s.snapshot_cycle = some 0 then
      (st, .error .RollbackException)
    else
      wait_for_session_address_communication i
        (upd (emit st (.rollbackMachine i)) i (fun t =>
          { t with cycle := t.snapshot_cycle.getD t.cycle, snapshot_cycle := none }))

/-- Embeds the legacy `recreate_machine`. -/
def recreate_machine (i : Nat) (st : St) : St × Except Err Unit :=
  match regFind st.reg i with
  | none => (st, .error .SessionIdException)
  | some s =>
    match create_new_cartesi_machine_server i
        (upd (if s.address.isSome then emit st (.shutdownServer i) else st) i
          (fun t => { t with address := none, cycle := 0, snapshot_cycle := none })) with
    | (st3, .error e) => (st3, .error e)
    | (st3, .ok _) =>
        match regFind st3.reg i with
        | none => (st3, .error .KeyError)
        | some t => create_machine i t.creation_machine_req st3

/-- Embeds the legacy `run_and_update_registry_cycle`: here the cycle update
`self.registry[session_id].cycle = c` is explicit in the registry source. -/
def run_and_update_registry_cycle (i c : Nat) (st : St) : St × Except Err Nat :=
  match regFind st.reg i with
  | none => (st, .error .SessionIdException)
  | some s =>
    if s.address.isNone then (st, .error .AddressException)
    else
      (upd (emit st (.runMachine i c)) i (fun t => { t with cycle := c }), .ok c)

/-- Embeds the legacy `run_session` tail loop. -/
def run_loop (i : Nat) : List Nat → St → St × Except Err (List Nat × List Nat)
  | [], st => (st, .ok ([], []))
  | c :: cs, st =>
    match run_and_update_registry_cycle i c st with
    | (st1, .error e) => (st1, .error e)
    | (st1, .ok summary) =>
      match get_machine_root_hash i st1 with
      | (st2, .error e) => (st2, .error e)
      | (st2, .ok h) =>
        match run_loop i cs st2 with
        | (st3, .error e) => (st3, .error e)
        | (st3, .ok (ss, hs)) => (st3, .ok (summary :: ss, h :: hs))

/-- Embeds the legacy `run_session`.  The middle component of the result is the
content of the caller-supplied `final_cycles` list object when the call returns
or raises: this variant executes `first_c = final_cycles.pop(0)` directly on
the caller argument, so once the id and address checks pass the caller list
loses its head on every subsequent path (`pop` on an empty list raises
`IndexError` with the list left empty).  The inline seek logic compares with
`snapshot_cycle < first_c`: a strict comparison, and a Python3 `TypeError`
when `snapshot_cycle` is `None`. -/
def run_session (i : Nat) (final_cycles : List Nat) (st : St) :
    St × List Nat × Except Err SR.SessionRunResult :=
  match regFind st.reg i with
  | none => (st, final_cycles, .error .SessionIdException)
  | some s =>
    if s.address.isNone then (st, final_cycles, .error .AddressException)
    else
      match final_cycles with
      | [] => (st, [], .error .IndexError)
      | first_c :: rest =>
        match ((if first_c < s.cycle then
            match s.snapshot_cycle with
            | none => (st, .error .TypeError)
            | some k =>
                if k < first_c then rollback_machine i st else recreate_machine i st
          else (st, .ok ())) : St × Except Err Unit) with
        | (st1, .error e) => (st1, rest, .error e)
        | (st1, .ok _) =>
          match run_and_update_registry_cycle i first_c st1 with
          | (st2, .error e) => (st2, rest, .error e)
          | (st2, .ok s1) =>
            match snapshot_machine i st2 with
            | (st3, .error e) => (st3, rest, .error e)
            | (st3, .ok _) =>
              match get_machine_root_hash i st3 with
              | (st4, .error e) => (st4, rest, .error e)
              | (st4, .ok h1) =>
                match run_loop i rest st4 with
                | (st5, .error e) => (st5, rest, .error e)
                | (st5, .ok (ss, hs)) =>
                  (st5, rest, .ok ⟨s1 :: ss, h1 :: hs⟩)

end Legacy

/-- Decidable equality of `Except` values, needed to evaluate dispatcher
states on concrete inputs. -/
instance {ε α : Type} [DecidableEq ε] [DecidableEq α] : DecidableEq (Except ε α) := fun x y =>
  match x, y with
  | .ok a, .ok b =>
      if h : a = b then .isTrue (by rw [h]) else .isFalse (by intro hc; cases hc; exact h rfl)
  | .error a, .error b =>
      if h : a = b then .isTrue (by rw [h]) else .isFalse (by intro hc; cases hc; exact h rfl)
  | .ok _, .error _ => .isFalse (by intro hc; cases hc)
  | .error _, .ok _ => .isFalse (by intro hc; cases hc)

namespace MS

/-- The completed background execution stored in a dispatcher slot.  `jobId`
identifies the submission (model instrumentation: each `executor.submit` gets
the next fresh id); `result` is what `fn(*args)` produced, an error standing
for an exception captured on the future.  `done` embeds `future.done()`.
Because `__try_job__` submits inside `with futures.ThreadPoolExecutor() as
executor:`, the `raise NotReadyException` unwinds through the context manager,
whose exit calls `shutdown(wait=True)` and joins the submitted job while the
dispatcher locks are still held — so by the time any caller observes the
future it is already completed; submission therefore stores `done := true`. -/
structure Future where
  jobId : Nat
  done : Bool
  result : Except Nat Nat
deriving DecidableEq, Repr

/-- Embeds `SessionJob` (the per-session slot). -/
structure SessionJob where
  job_hash : Option Nat
  job_future : Option Future
deriving DecidableEq, Repr

/-- Dispatcher state: the `self.job` dict and the fresh-id counter used to tag
submissions. -/
structure DState where
  job : List (Nat × SessionJob)
  nextId : Nat
deriving DecidableEq, Repr

def jget : List (Nat × SessionJob) → Nat → Option SessionJob
  | [], _ => none
  | (k, s) :: r, i => if k = i then some s else jget r i

def jset : List (Nat × SessionJob) → Nat → SessionJob → List (Nat × SessionJob)
  | [], i, s => [(i, s)]
  | (k, t) :: r, i, s => if k = i then (i, s) :: r else (k, t) :: jset r i s

/-- Outcome of one `__try_job__` call: either the `NotReadyException` or the
completed future handed back to the RPC handler. -/
inductive TryOutcome where
  | notReady
  | delivered (f : Future)
deriving DecidableEq, Repr

/-- Embeds `executor.submit(fn, *args)` preceded by `__set_job_hash__` and
followed by `raise NotReadyException`: the slot stores the request fingerprint
and a future that is already completed when the exception reaches the caller
(see `Future`). -/
def submit (i req : Nat) (work : Except Nat Nat) (st : DState) : DState :=
  { job := jset st.job i
      { job_hash := some req, job_future := some { jobId := st.nextId, done := true, result := work } },
    nextId := st.nextId + 1 }

/-- Embeds `__try_job__`.  `work` is the value the submitted `fn(*args)` will
produce if a submission happens on this call. -/
def try_job (i req : Nat) (work : Except Nat Nat) (st : DState) : DState × TryOutcome :=
  match jget st.job i with
  | some slot =>
    match slot.job_future with
    | none => (submit i req work st, .notReady)
    | some f =>
      if f.done then
        if slot.job_hash = some req then
          ({ job := jset st.job i { job_hash := none, job_future := none },
             nextId := st.nextId }, .delivered f)
        else
          ({ job := jset st.job i { job_hash := none, job_future := none },
             nextId := st.nextId }, .notReady)
      else (st, .notReady)
  | none => (submit i req work st, .notReady)

/-- RPC-handler-level outcome: `NotReadyException` propagates to the handler,
and a delivered future is reclaimed with `job.result()`, which re-raises the
exception captured on the future if the background job failed. -/
inductive DisErr where
  | NotReadyException
  | JobError (e : Nat)
deriving DecidableEq, Repr

/-- Embeds the handler pattern `job = self.__try_job__(...); return
job.result()` shared by every high-level RPC. -/
def try_job_rpc (i req : Nat) (work : Except Nat Nat) (st : DState) :
    DState × Except DisErr Nat :=
  match try_job i req work st with
  | (st1, .notReady) => (st1, .error .NotReadyException)
  | (st1, .delivered f) =>
      match f.result with
      | .ok v => (st1, .ok v)
      | .error e => (st1, .error (.JobError e))

/-- One client poll of the dispatcher: the retried request payload and the
result the submitted work would produce if this poll starts a job. -/
structure Poll where
  req : Nat
  work : Except Nat Nat
deriving DecidableEq, Repr

/-- Runs a sequence of polls for one session id, collecting the outcomes. -/
def runPolls (i : Nat) : List Poll → DState → DState × List TryOutcome
  | [], st => (st, [])
  | p :: ps, st =>
    match try_job i p.req p.work st with
    | (st1, o) =>
      match runPolls i ps st1 with
      | (st2, os) => (st2, o :: os)

/-- The job ids of the futures a poll sequence delivered to the client. -/
def deliveredIds (os : List TryOutcome) : List Nat :=
  os.filterMap fun o => match o with | .delivered f => some f.jobId | .notReady => none

/-- Well-formedness of the slot of session `i`: a stored future was created by
an earlier submission, so its id is below the fresh-id counter. -/
def slotWfB (i : Nat) (st : DState) : Bool :=
  match jget st.job i with
  | some slot =>
    match slot.job_future with
    | some f => f.jobId < st.nextId
    | none => true
  | none => true

end MS

/-!
Helper lemmas about the registry association list and the state record.
-/

@[simp]
theorem regFind_regSet_self (r : Registry) (i : Nat) (s : CartesiSession) :
    regFind (regSet r i s) i = some s := by
  induction r with
  | nil => simp [regSet, regFind]
  | cons p r ih =>
    obtain ⟨k, t⟩ := p
    by_cases hk : k = i
    · simp [regSet, hk, regFind]
    · simp [regSet, hk, regFind, ih]

theorem regFind_regSet_ne (r : Registry) (i j : Nat) (s : CartesiSession) (h : j ≠ i) :
    regFind (regSet r i s) j = regFind r j := by
  have hij : ¬(i = j) := fun hh => h hh.symm
  induction r with
  | nil => simp [regSet, regFind, hij]
  | cons p r ih =>
    obtain ⟨k, t⟩ := p
    by_cases hk : k = i
    · subst hk
      simp [regSet, regFind, hij]
    · simp [regSet, hk, regFind, ih]

@[simp]
theorem regFind_regErase_self (r : Registry) (i : Nat) :
    regFind (regErase r i) i = none := by
  induction r with
  | nil => simp [regErase, regFind]
  | cons p r ih =>
    obtain ⟨k, t⟩ := p
    by_cases hk : k = i
    · simp [regErase, hk, ih]
    · simp [regErase, hk, regFind, ih]

theorem regFind_regErase_ne (r : Registry) (i j : Nat) (h : j ≠ i) :
    regFind (regErase r i) j = regFind r j := by
  have hij : ¬(i = j) := fun hh => h hh.symm
  induction r with
  | nil => simp [regErase]
  | cons p r ih =>
    obtain ⟨k, t⟩ := p
    by_cases hk : k = i
    · subst hk
      simp [regErase, regFind, hij, ih]
    · simp [regErase, hk, regFind, ih]

theorem updSession_eq_regSet (r : Registry) (i : Nat) (s : CartesiSession)
    (f : CartesiSession → CartesiSession) (h : regFind r i = some s) :
    updSession r i f = regSet r i (f s) := by
  induction r with
  | nil => simp [regFind] at h
  | cons p r ih =>
    obtain ⟨k, t⟩ := p
    by_cases hk : k = i
    · subst hk
      simp [regFind] at h
      subst h
      simp [updSession, regSet]
    · simp [regFind, hk] at h
      simp [updSession, regSet, hk, ih h]

@[simp]
theorem regSet_regSet (r : Registry) (i : Nat) (s t : CartesiSession) :
    regSet (regSet r i s) i t = regSet r i t := by
  induction r with
  | nil => simp [regSet]
  | cons p r ih =>
    obtain ⟨k, u⟩ := p
    by_cases hk : k = i
    · simp [regSet, hk]
    · simp [regSet, hk, ih]

theorem regSet_cancel (r : Registry) (i : Nat) (s : CartesiSession)
    (h : regFind r i = some s) : regSet r i s = r := by
  induction r with
  | nil => simp [regFind] at h
  | cons p r ih =>
    obtain ⟨k, u⟩ := p
    by_cases hk : k = i
    · subst hk
      simp [regFind] at h
      subst h
      simp [regSet]
    · simp [regFind, hk] at h
      simp [regSet, hk, ih h]

theorem snapInvB_spec (r : Registry) (h : SR.snapInvB r = true) :
    ∀ i s, regFind r i = some s → ∀ k, s.snapshot_cycle = some k → k ≤ s.cycle := by
  induction r with
  | nil => intro i s hs; simp [regFind] at hs
  | cons p r ih =>
    intro i s hs k hk
    obtain ⟨kk, t⟩ := p
    have hall : (match t.snapshot_cycle with
        | none => true
        | some k => decide (k ≤ t.cycle)) = true ∧ SR.snapInvB r = true := by
      simpa [SR.snapInvB, List.all_cons] using h
    by_cases hkk : kk = i
    · simp [regFind, hkk] at hs
      subst hs
      have h1 := hall.1
      rw [hk] at h1
      simpa using h1
    · simp [regFind, hkk] at hs
      exact ih hall.2 i s hs k hk

theorem snapInvB_snapInv (st : St) (h : SR.snapInvB st.reg = true) : SR.snapInv st :=
  fun i s hs k hk => snapInvB_spec st.reg h i s hs k hk

theorem updSession_found {r : Registry} {i : Nat} {s : CartesiSession}
    (h : regFind r i = some s) (f : CartesiSession → CartesiSession) :
    updSession r i f = regSet r i (f s) :=
  updSession_eq_regSet r i s f h

/-!
Characterization lemmas for the primitives of the SR registry variant.
-/

theorem wait_checkin (i : Nat) (st : St) (s : CartesiSession) (a : Nat)
    (er : List CheckinEvent) (hs : regFind st.reg i = some s)
    (he : st.env = .checkin a :: er) :
    SR.wait_until_address i st =
      ({ st with reg := regSet st.reg i { s with address := some a }, env := er }, .ok ()) := by
  unfold SR.wait_until_address
  rw [hs, he]
  simp only [upd]
  rw [updSession_found (r := st.reg) hs]

theorem wait_timeout (i : Nat) (st : St) (s : CartesiSession)
    (er : List CheckinEvent) (hs : regFind st.reg i = some s)
    (he : st.env = .timeout :: er) :
    SR.wait_until_address i st =
      ({ st with
          reg := regErase st.reg i,
          env := er,
          trace := st.trace ++ [.killSession i] }, .error .CheckinException) := by
  unfold SR.wait_until_address
  rw [hs, he]
  simp [SR._remove_session, SR.kill_session, emit]

theorem wait_nil (i : Nat) (st : St) (s : CartesiSession)
    (hs : regFind st.reg i = some s) (he : st.env = []) :
    SR.wait_until_address i st =
      ({ st with
          reg := regErase st.reg i,
          trace := st.trace ++ [.killSession i] }, .error .CheckinException) := by
  unfold SR.wait_until_address
  rw [hs, he]
  simp [SR._remove_session, SR.kill_session, emit, he]

theorem hash_char (i : Nat) (st : St) (s : CartesiSession) (a : Nat)
    (hs : regFind st.reg i = some s) (ha : s.address = some a) :
    SR.get_machine_root_hash i st = ({ st with trace := st.trace ++ [.getHash i] }, .ok 0) := by
  unfold SR.get_machine_root_hash
  rw [hs]
  simp [ha, emit]

theorem create_machine_char (i : Nat) (req : Option Nat) (st : St) (s : CartesiSession)
    (a : Nat) (hs : regFind st.reg i = some s) (ha : s.address = some a) :
    SR.create_machine i req st =
      ({ st with
          reg := regSet st.reg i { s with creation_machine_req := req },
          trace := st.trace ++ [.newMachine i] }, .ok ()) := by
  unfold SR.create_machine
  rw [hs]
  simp only [ha, Option.isNone_some, Bool.false_eq_true, if_false, upd, emit]
  rw [updSession_found (r := st.reg) hs]
  simp [ha]

theorem rau_char (i c : Nat) (st : St) (s : CartesiSession) (a : Nat)
    (hs : regFind st.reg i = some s) (ha : s.address = some a) :
    SR.run_and_update_registry_cycle i c st =
      ({ st with
          reg := regSet st.reg i { s with cycle := c },
          trace := st.trace ++ [.runMachine i c] }, .ok c) := by
  unfold SR.run_and_update_registry_cycle SR.run_machine
  rw [hs]
  simp only [ha, Option.isNone_some, Bool.false_eq_true, if_false, upd, emit]
  rw [updSession_found (r := st.reg) hs]
  simp [ha]

theorem step_char (i : Nat) (st : St) (s : CartesiSession) (a : Nat)
    (hs : regFind st.reg i = some s) (ha : s.address = some a) :
    SR.step_and_update_registry_cycle i st =
      ({ st with
          reg := regSet st.reg i { s with cycle := s.cycle + 1 },
          trace := st.trace ++ [.stepMachine i] }, .ok 0) := by
  unfold SR.step_and_update_registry_cycle
  rw [hs]
  simp only [ha, Option.isNone_some, Bool.false_eq_true, if_false, upd, emit]
  rw [updSession_found (r := st.reg) hs]
  simp [ha]

theorem create_server_char (i : Nat) (st : St) (s : CartesiSession) (b : Nat)
    (er : List CheckinEvent) (hs : regFind st.reg i = some s) (ha : s.address = none)
    (he : st.env = .checkin b :: er) :
    SR.create_new_cartesi_machine_server i st =
      ({ st with
          reg := regSet st.reg i { s with address := some b },
          env := er,
          trace := st.trace ++ [.newServer i] }, .ok ()) := by
  unfold SR.create_new_cartesi_machine_server
  rw [hs]
  simp only [ha, Option.isSome_none, Bool.false_eq_true, if_false, emit, upd]
  rw [updSession_found (r := st.reg) hs]
  rw [wait_checkin i _ ({ s with address := none }) b er (by simp) (by simpa using he)]
  simp [regSet_regSet]

theorem snapshot_ok (i : Nat) (st : St) (s : CartesiSession) (a b : Nat)
    (er : List CheckinEvent) (hs : regFind st.reg i = some s) (ha : s.address = some a)
    (he : st.env = .checkin b :: er) :
    SR.snapshot_machine i st =
      ({ st with
          reg := regSet st.reg i { s with address := some b, snapshot_cycle := some s.cycle },
          env := er,
          trace := st.trace ++ [.snapshotMachine i] }, .ok ()) := by
  unfold SR.snapshot_machine
  rw [hs]
  simp only [ha, Option.isNone_some, Bool.false_eq_true, if_false, emit, upd]
  rw [updSession_found (r := st.reg) hs]
  rw [wait_checkin i _ ({ s with address := none }) b er (by simp) (by simpa using he)]
  simp only [regSet_regSet, upd]
  rw [updSession_found (regFind_regSet_self _ _ _)]
  simp [regSet_regSet]

theorem rollback_char (i : Nat) (st : St) (s : CartesiSession) (a k b : Nat)
    (er : List CheckinEvent) (hs : regFind st.reg i = some s) (ha : s.address = some a)
    (hk : s.snapshot_cycle = some k) (he : st.env = .checkin b :: er) :
    SR.rollback_machine i st =
      ({ st with
          reg := regSet st.reg i { s with address := some b, cycle := k, snapshot_cycle := none },
          env := er,
          trace := st.trace ++ [.rollbackMachine i] }, .ok ()) := by
  unfold SR.rollback_machine
  rw [hs]
  simp only [ha, Option.isNone_some, Bool.false_eq_true, if_false, hk, emit, upd,
    reduceCtorEq]
  rw [updSession_found (r := st.reg) hs]
  rw [wait_checkin i _ ({ s with address := none }) b er (by simp) (by simpa using he)]
  simp only [regSet_regSet, upd]
  rw [updSession_found (regFind_regSet_self _ _ _)]
  simp [regSet_regSet, hk]

theorem recreate_char (i : Nat) (st : St) (s : CartesiSession) (a b : Nat)
    (er : List CheckinEvent) (hs : regFind st.reg i = some s) (ha : s.address = some a)
    (he : st.env = .checkin b :: er) :
    SR.recreate_machine i st =
      ({ st with
          reg := regSet st.reg i { s with address := some b, cycle := 0, snapshot_cycle := none },
          env := er,
          trace := st.trace ++ [.shutdownServer i, .newServer i, .newMachine i] }, .ok ()) := by
  unfold SR.recreate_machine
  rw [hs]
  simp only [ha, Option.isSome_some, if_true, emit, upd]
  rw [updSession_found (r := st.reg) hs]
  rw [create_server_char i _ ({ s with address := none, cycle := 0, snapshot_cycle := none })
        b er (by simp) (by simp) (by simpa using he)]
  simp only [regSet_regSet, regFind_regSet_self]
  rw [create_machine_char i _ _ _ b (regFind_regSet_self _ _ _) (by simp)]
  simp [regSet_regSet]

/-- C1: for every session whose address is set and whose snapshot_cycle is set,
when `run_machine_to_desired_cyle(id, c)` is invoked with current cycle
strictly greater than `c`: if `snapshot_cycle ≤ c` it rolls back and then runs
forward to `c` (the emitted worker calls are exactly the rollback request
followed by the run), and if `snapshot_cycle > c` it recreates and then runs
forward to `c` (worker shutdown, fresh server, fresh machine, then the run).
In particular a request with `c` exactly equal to `snapshot_cycle` satisfies
`snapshot_cycle ≤ c` and takes the rollback path, never the recreate path. -/
theorem C1_cycle_seek_paths (st : St) (i : Nat) (s : CartesiSession)
    (a k c b : Nat) (er : List CheckinEvent)
    (hs : regFind st.reg i = some s) (ha : s.address = some a)
    (hk : s.snapshot_cycle = some k) (hc : c < s.cycle)
    (he : st.env = .checkin b :: er) :
    (k ≤ c →
      SR.run_machine_to_desired_cyle i c st =
        ({ st with
            reg := regSet st.reg i { s with address := some b, cycle := c, snapshot_cycle := none },
            env := er,
            trace := st.trace ++ [.rollbackMachine i, .runMachine i c] }, .ok c))
    ∧ (c < k →
      SR.run_machine_to_desired_cyle i c st =
        ({ st with
            reg := regSet st.reg i { s with address := some b, cycle := c, snapshot_cycle := none },
            env := er,
            trace := st.trace ++ [.shutdownServer i, .newServer i, .newMachine i,
              .runMachine i c] }, .ok c)) := by
  constructor
  · intro hkc
    unfold SR.run_machine_to_desired_cyle
    rw [hs]
    simp only [ha, Option.isNone_some, Bool.false_eq_true, if_false, hk, if_pos hc, if_pos hkc]
    rw [rollback_char i st s a k b er hs ha hk he]
    dsimp only
    rw [rau_char i c _ ({ s with address := some b, cycle := k, snapshot_cycle := none }) b
          (by simp) (by simp)]
    simp [regSet_regSet]
  · intro hck
    have hkc : ¬(k ≤ c) := by omega
    unfold SR.run_machine_to_desired_cyle
    rw [hs]
    simp only [ha, Option.isNone_some, Bool.false_eq_true, if_false, hk, if_pos hc, if_neg hkc]
    rw [recreate_char i st s a b er hs ha he]
    dsimp only
    rw [rau_char i c _ ({ s with address := some b, cycle := 0, snapshot_cycle := none }) b
          (by simp) (by simp)]
    simp [regSet_regSet]

/-- Witness for C1 at concrete inputs: a session at cycle 10 with a snapshot at
cycle 4; the request at exactly cycle 4 takes the rollback path, the request at
cycle 3 takes the recreate path. -/
theorem C1_cycle_seek_paths_witness :
    SR.run_machine_to_desired_cyle 1 4
        ⟨[(1, ⟨1, some 7, 10, some 4, some 0⟩)], [.checkin 9], []⟩ =
      (⟨[(1, ⟨1, some 9, 4, none, some 0⟩)], [], [.rollbackMachine 1, .runMachine 1 4]⟩, .ok 4) ∧
    SR.run_machine_to_desired_cyle 1 3
        ⟨[(1, ⟨1, some 7, 10, some 4, some 0⟩)], [.checkin 9], []⟩ =
      (⟨[(1, ⟨1, some 9, 3, none, some 0⟩)], [],
        [.shutdownServer 1, .newServer 1, .newMachine 1, .runMachine 1 3]⟩, .ok 3) := by
  constructor
  · exact (C1_cycle_seek_paths ⟨[(1, ⟨1, some 7, 10, some 4, some 0⟩)], [.checkin 9], []⟩
      1 ⟨1, some 7, 10, some 4, some 0⟩ 7 4 4 9 [] (by decide) rfl rfl (by decide) rfl).1
      (by decide)
  · exact (C1_cycle_seek_paths ⟨[(1, ⟨1, some 7, 10, some 4, some 0⟩)], [.checkin 9], []⟩
      1 ⟨1, some 7, 10, some 4, some 0⟩ 7 4 3 9 [] (by decide) rfl rfl (by decide) rfl).2
      (by decide)

theorem regErase_regSet (r : Registry) (i : Nat) (s : CartesiSession) :
    regErase (regSet r i s) i = regErase r i := by
  induction r with
  | nil => simp [regSet, regErase]
  | cons p r ih =>
    obtain ⟨k, t⟩ := p
    by_cases hk : k = i
    · simp [regSet, hk, regErase]
    · simp [regSet, hk, regErase, ih]

theorem updSession_not_found (r : Registry) (i : Nat)
    (f : CartesiSession → CartesiSession) (h : regFind r i = none) :
    updSession r i f = r := by
  induction r with
  | nil => simp [updSession]
  | cons p r ih =>
    obtain ⟨k, t⟩ := p
    by_cases hk : k = i
    · simp [regFind, hk] at h
    · simp [regFind, hk] at h
      simp [updSession, hk, ih h]

theorem hash_reg (i : Nat) (st : St) : (SR.get_machine_root_hash i st).1.reg = st.reg := by
  unfold SR.get_machine_root_hash
  split
  · rfl
  · split
    · rfl
    · simp [emit]

theorem hash_env (i : Nat) (st : St) : (SR.get_machine_root_hash i st).1.env = st.env := by
  unfold SR.get_machine_root_hash
  split
  · rfl
  · split
    · rfl
    · simp [emit]

theorem wait_ok_props (i : Nat) (st st1 : St) (u : Unit)
    (h : SR.wait_until_address i st = (st1, .ok u)) :
    ∃ s b er, regFind st.reg i = some s ∧ st.env = .checkin b :: er ∧
      st1 = { st with reg := regSet st.reg i { s with address := some b }, env := er } := by
  unfold SR.wait_until_address at h
  split at h
  · simp at h
  · rename_i s hs
    split at h
    · simp at h
    · simp at h
    · rename_i a er henv
      have h1 := congrArg Prod.fst h
      simp only [Prod.fst] at h1
      refine ⟨s, a, er, hs, henv, ?_⟩
      rw [← h1]
      simp [upd, updSession_found (r := st.reg) hs]

theorem rau_ok_props (i c : Nat) (st st1 : St) (v : Nat)
    (h : SR.run_and_update_registry_cycle i c st = (st1, .ok v)) :
    ∃ s a, regFind st.reg i = some s ∧ s.address = some a ∧
      st1 = { st with
          reg := regSet st.reg i { s with cycle := c },
          trace := st.trace ++ [.runMachine i c] } ∧ v = c := by
  unfold SR.run_and_update_registry_cycle SR.run_machine at h
  split at h
  · simp at h
  · rename_i s hs
    split at h
    · simp at h
    · rename_i hn
      obtain ⟨a, ha⟩ : ∃ a, s.address = some a := by
        cases hh : s.address
        · rw [hh] at hn; simp at hn
        · exact ⟨_, rfl⟩
      have h1 := congrArg Prod.fst h
      have h2 := congrArg Prod.snd h
      simp only [Prod.fst, Prod.snd] at h1 h2
      refine ⟨s, a, hs, ha, ?_, ?_⟩
      · rw [← h1]
        simp [upd, emit, updSession_found (r := st.reg) hs]
      · simpa using h2.symm

theorem seek_ok_props (i c : Nat) (st st1 : St) (v : Nat)
    (h : SR.run_machine_to_desired_cyle i c st = (st1, .ok v)) :
    ∃ s1 a1, regFind st1.reg i = some s1 ∧ s1.cycle = c ∧ s1.address = some a1 ∧ v = c := by
  unfold SR.run_machine_to_desired_cyle at h
  split at h
  · simp at h
  · rename_i s hs
    split at h
    · simp at h
    · split at h
      · simp at h
      · rename_i st2 u heq
        obtain ⟨t, a, hfind, hadr, hst1, hv⟩ := rau_ok_props i c st2 st1 v h
        refine ⟨{ t with cycle := c }, a, ?_, rfl, hadr, hv⟩
        rw [hst1]
        simp

theorem create_machine_ok_props (i : Nat) (req : Option Nat) (st st1 : St) (u : Unit)
    (h : SR.create_machine i req st = (st1, .ok u)) :
    ∃ s a, regFind st.reg i = some s ∧ s.address = some a ∧
      st1 = { st with
          reg := regSet st.reg i { s with creation_machine_req := req },
          trace := st.trace ++ [.newMachine i] } := by
  unfold SR.create_machine at h
  split at h
  · simp at h
  · rename_i s hs
    split at h
    · simp at h
    · rename_i hn
      obtain ⟨a, ha⟩ : ∃ a, s.address = some a := by
        cases hh : s.address
        · rw [hh] at hn; simp at hn
        · exact ⟨_, rfl⟩
      have h1 := congrArg Prod.fst h
      simp only [Prod.fst] at h1
      refine ⟨s, a, hs, ha, ?_⟩
      rw [← h1]
      simp [upd, emit, updSession_found (r := st.reg) hs]

theorem create_server_ok_props (i : Nat) (st st1 : St) (u : Unit)
    (h : SR.create_new_cartesi_machine_server i st = (st1, .ok u)) :
    ∃ s b er, regFind st.reg i = some s ∧ st.env = .checkin b :: er ∧
      st1 = { st with
          reg := regSet st.reg i { s with address := some b },
          env := er,
          trace := st.trace ++ [.newServer i] } := by
  unfold SR.create_new_cartesi_machine_server at h
  split at h
  · simp at h
  · rename_i s hs
    split at h
    · simp at h
    · obtain ⟨t, b, er, hfind, henv, hst1⟩ := wait_ok_props i _ st1 u h
      simp only [upd, emit] at hfind henv hst1
      rw [updSession_found (r := st.reg) hs] at hfind hst1
      rw [regFind_regSet_self] at hfind
      cases hfind
      refine ⟨s, b, er, hs, henv, ?_⟩
      rw [hst1]
      simp [regSet_regSet]

theorem snapshot_ok_props (i : Nat) (st st1 : St) (u : Unit)
    (h : SR.snapshot_machine i st = (st1, .ok u)) :
    ∃ s b er, regFind st.reg i = some s ∧ st.env = .checkin b :: er ∧
      st1 = { st with
          reg := regSet st.reg i { s with address := some b, snapshot_cycle := some s.cycle },
          env := er,
          trace := st.trace ++ [.snapshotMachine i] } := by
  unfold SR.snapshot_machine at h
  split at h
  · simp at h
  · rename_i s hs
    split at h
    · simp at h
    · split at h
      · simp at h
      · rename_i st3 u3 heq
        obtain ⟨t, b, er, hfind, henv, hst3⟩ := wait_ok_props i _ st3 u3 heq
        simp only [upd, emit] at hfind henv hst3
        rw [updSession_found (r := st.reg) hs] at hfind hst3
        rw [regFind_regSet_self] at hfind
        cases hfind
        have h1 := congrArg Prod.fst h
        simp only [Prod.fst] at h1
        refine ⟨s, b, er, hs, henv, ?_⟩
        rw [← h1, hst3]
        simp only [upd, regSet_regSet]
        rw [updSession_found (regFind_regSet_self _ _ _)]
        simp [regSet_regSet]

theorem rollback_ok_props (i : Nat) (st st1 : St) (u : Unit)
    (h : SR.rollback_machine i st = (st1, .ok u)) :
    ∃ s k b er, regFind st.reg i = some s ∧ s.snapshot_cycle = some k ∧
      st.env = .checkin b :: er ∧
      st1 = { st with
          reg := regSet st.reg i { s with address := some b, cycle := k, snapshot_cycle := none },
          env := er,
          trace := st.trace ++ [.rollbackMachine i] } := by
  unfold SR.rollback_machine at h
  split at h
  · simp at h
  · rename_i s hs
    split at h
    · simp at h
    · split at h
      · simp at h
      · rename_i hsnap
        obtain ⟨k, hk⟩ : ∃ k, s.snapshot_cycle = some k := by
          cases hh : s.snapshot_cycle
          · exact absurd hh hsnap
          · exact ⟨_, rfl⟩
        split at h
        · simp at h
        · rename_i st3 u3 heq
          obtain ⟨t, b, er, hfind, henv, hst3⟩ := wait_ok_props i _ st3 u3 heq
          simp only [upd, emit] at hfind henv hst3
          rw [updSession_found (r := st.reg) hs] at hfind hst3
          rw [regFind_regSet_self] at hfind
          cases hfind
          have h1 := congrArg Prod.fst h
          simp only [Prod.fst] at h1
          refine ⟨s, k, b, er, hs, hk, henv, ?_⟩
          rw [← h1, hst3]
          simp only [upd, regSet_regSet]
          rw [updSession_found (regFind_regSet_self _ _ _)]
          simp [regSet_regSet, hk]

theorem recreate_ok_props (i : Nat) (st st1 : St) (u : Unit)
    (h : SR.recreate_machine i st = (st1, .ok u)) :
    ∃ s b er, regFind st.reg i = some s ∧ st.env = .checkin b :: er ∧
      st1 = { st with
          reg := regSet st.reg i { s with address := some b, cycle := 0, snapshot_cycle := none },
          env := er,
          trace := (if s.address.isSome then st.trace ++ [.shutdownServer i] else st.trace)
            ++ [.newServer i, .newMachine i] } := by
  unfold SR.recreate_machine at h
  split at h
  · simp at h
  · rename_i s hs
    split at h
    · simp at h
    · rename_i st3 u3 heq
      obtain ⟨t, b, er, hfind, henv, hst3⟩ := create_server_ok_props i _ st3 u3 heq
      simp only [upd] at hfind henv hst3
      have hreg0 : (if s.address.isSome then emit st (.shutdownServer i) else st).reg = st.reg := by
        split <;> simp [emit]
      have henv0 : (if s.address.isSome then emit st (.shutdownServer i) else st).env = st.env := by
        split <;> simp [emit]
      have htr0 : (if s.address.isSome then emit st (.shutdownServer i) else st).trace =
          (if s.address.isSome then st.trace ++ [.shutdownServer i] else st.trace) := by
        split <;> simp [emit]
      rw [hreg0] at hfind hst3
      rw [updSession_found (r := st.reg) hs] at hfind hst3
      rw [regFind_regSet_self] at hfind
      cases hfind
      rw [henv0] at henv
      split at h
      · simp at h
      · rename_i t2 hfind2
        rw [hst3] at hfind2
        simp only [regSet_regSet] at hfind2
        rw [regFind_regSet_self] at hfind2
        cases hfind2
        obtain ⟨t3, a3, hfind3, hadr3, hst1⟩ := create_machine_ok_props i _ _ st1 u h
        rw [hst3] at hfind3
        simp only [regSet_regSet] at hfind3
        rw [regFind_regSet_self] at hfind3
        cases hfind3
        refine ⟨s, b, er, hs, henv, ?_⟩
        rw [hst1, hst3]
        simp [regSet_regSet, htr0]

theorem run_loop_char (i : Nat) (cs : List Nat) :
    ∀ (st : St) (s : CartesiSession) (a : Nat), regFind st.reg i = some s →
    s.address = some a →
    ∃ tr, SR.run_loop i cs st =
      ({ st with
          reg := regSet st.reg i { s with cycle := cs.getLastD s.cycle },
          trace := tr },
        .ok (cs, cs.map fun _ => 0)) := by
  induction cs with
  | nil =>
    intro st s a hs ha
    refine ⟨st.trace, ?_⟩
    rw [SR.run_loop]
    rw [show ({ s with cycle := [].getLastD s.cycle } : CartesiSession) = s from rfl]
    rw [regSet_cancel _ _ _ hs]
    simp
  | cons c cs ih =>
    intro st s a hs ha
    rw [SR.run_loop]
    rw [rau_char i c st s a hs ha]
    dsimp only
    rw [hash_char i _ ({ s with cycle := c }) a (by simp) (by simp [ha])]
    dsimp only
    obtain ⟨tr, hloop⟩ := ih
      ({ st with
          reg := regSet st.reg i { s with cycle := c },
          trace := st.trace ++ [.runMachine i c] ++ [.getHash i] })
      ({ s with cycle := c }) a (by simp) (by simp [ha])
    rw [hloop]
    refine ⟨tr, ?_⟩
    simp only [regSet_regSet]
    cases cs with
    | nil => simp
    | cons d ds =>
      obtain ⟨x, hx⟩ := Option.isSome_iff_exists.mp
        (List.getLast?_isSome.mpr (List.cons_ne_nil d ds))
      simp [hx]

/-- C2: for every session id present in the registry with its address set and
every non-empty strictly ascending cycle list, a successful
`run_session(id, [c1, ..., cn])` leaves the session cycle equal to `cn` and
returns one run summary and one root hash per requested cycle (`n` of each). -/
theorem C2_run_session_result (st : St) (i : Nat) (s : CartesiSession) (a : Nat)
    (final_cycles : List Nat) (st1 : St) (cl : List Nat) (r : SR.SessionRunResult)
    (hs : regFind st.reg i = some s) (ha : s.address = some a)
    (hne : final_cycles ≠ [])
    (hasc : Utils.ascending final_cycles = true)
    (hok : SR.run_session i final_cycles st = (st1, cl, .ok r)) :
    r.summaries.length = final_cycles.length ∧
    r.hashes.length = final_cycles.length ∧
    ∃ s1, regFind st1.reg i = some s1 ∧ s1.cycle = final_cycles.getLastD 0 := by
  unfold SR.run_session at hok
  rw [hs] at hok
  simp only [ha, Option.isNone_some, Bool.false_eq_true, if_false, List.map_id'] at hok
  cases final_cycles with
  | nil => exact absurd rfl hne
  | cons c1 rest =>
    dsimp only at hok
    split at hok
    · simp at hok
    · rename_i stA v hseek
      split at hok
      · simp at hok
      · rename_i stB uB hsnap
        split at hok
        · simp at hok
        · rename_i stC hC hhash
          split at hok
          · simp at hok
          · rename_i stD ss hsl hloop
            obtain ⟨sA, aA, hfindA, hcycA, hadrA, hv⟩ := seek_ok_props i c1 st stA v hseek
            obtain ⟨sB0, b, er, hfindB0, henvA, hstB⟩ := snapshot_ok_props i stA stB uB hsnap
            rw [hfindA] at hfindB0
            cases hfindB0
            have hregC : stC.reg = stB.reg := by
              have hh := hash_reg i stB
              rw [hhash] at hh
              exact hh
            have hfindC : regFind stC.reg i =
                some { sA with address := some b, snapshot_cycle := some sA.cycle } := by
              rw [hregC, hstB]
              simp
            obtain ⟨tr, hloop2⟩ := run_loop_char i rest stC
              ({ sA with address := some b, snapshot_cycle := some sA.cycle }) b hfindC (by simp)
            rw [hloop2] at hloop
            have hstD := congrArg (fun p => p.1) hloop
            have hres := congrArg (fun p => p.2) hloop
            simp only at hstD hres
            obtain ⟨hss, hhs⟩ : ss = rest ∧ hsl = rest.map (fun _ => 0) := by
              constructor
              · exact (congrArg (fun q => q.1) (Except.ok.inj hres)).symm
              · exact (congrArg (fun q => q.2) (Except.ok.inj hres)).symm
            have h1 := congrArg (fun p => p.1) hok
            have h2 := congrArg (fun p => p.2.1) hok
            have h3 := congrArg (fun p => p.2.2) hok
            simp only at h1 h2 h3
            have hr : r = ⟨v :: ss, hC :: hsl⟩ := (Except.ok.inj h3).symm
            refine ⟨?_, ?_, ?_⟩
            · rw [hr, hss]
              simp
            · rw [hr, hhs]
              simp
            · refine ⟨{ sA with
                  address := some b,
                  snapshot_cycle := some sA.cycle,
                  cycle := rest.getLastD sA.cycle }, ?_, ?_⟩
              · rw [← h1, ← hstD]
                simp
              · simp only [hcycA, List.getLastD_cons]

/-- Witness for C2 at a concrete input: a fresh session run to cycles
`[3, 5]` returns two summary-hash pairs and leaves the cycle at 5. -/
theorem C2_run_session_result_witness :
    (⟨[3, 5], [0, 0]⟩ : SR.SessionRunResult).summaries.length = [3, 5].length ∧
    (⟨[3, 5], [0, 0]⟩ : SR.SessionRunResult).hashes.length = [3, 5].length ∧
    ∃ s1, regFind (SR.run_session 1 [3, 5]
        ⟨[(1, ⟨1, some 7, 0, none, some 0⟩)], [.checkin 9], []⟩).1.reg 1 = some s1 ∧
      s1.cycle = [3, 5].getLastD 0 :=
  C2_run_session_result ⟨[(1, ⟨1, some 7, 0, none, some 0⟩)], [.checkin 9], []⟩ 1
    ⟨1, some 7, 0, none, some 0⟩ 7 [3, 5]
    ⟨[(1, ⟨1, some 9, 5, some 3, some 0⟩)], [],
      [.runMachine 1 3, .snapshotMachine 1, .getHash 1, .runMachine 1 5, .getHash 1]⟩
    [3, 5] ⟨[3, 5], [0, 0]⟩
    (by decide) rfl (by decide) (by decide) (by decide)

/-- C6: for every session waiting on the worker check-in rendezvous (during
server creation, snapshot, or rollback), if no check-in arrives within the
5-second CHECKIN_WAIT_TIMEOUT (a `.timeout` oracle event), the session is
removed from the registry, surviving subprocesses matching the session id are
killed (`killSession` appears in the trace), and the operation raises
`CheckinException`; the session id is afterwards absent from the registry. -/
theorem C6_checkin_timeout :
    (∀ (st : St) (i : Nat) (s : CartesiSession) (er : List CheckinEvent),
      regFind st.reg i = some s → s.address = none → st.env = .timeout :: er →
      (SR.create_new_cartesi_machine_server i st).2 = .error .CheckinException ∧
      regFind (SR.create_new_cartesi_machine_server i st).1.reg i = none ∧
      Ev.killSession i ∈ (SR.create_new_cartesi_machine_server i st).1.trace) ∧
    (∀ (st : St) (i : Nat) (s : CartesiSession) (a : Nat) (er : List CheckinEvent),
      regFind st.reg i = some s → s.address = some a → st.env = .timeout :: er →
      (SR.snapshot_machine i st).2 = .error .CheckinException ∧
      regFind (SR.snapshot_machine i st).1.reg i = none ∧
      Ev.killSession i ∈ (SR.snapshot_machine i st).1.trace) ∧
    (∀ (st : St) (i : Nat) (s : CartesiSession) (a k : Nat) (er : List CheckinEvent),
      regFind st.reg i = some s → s.address = some a → s.snapshot_cycle = some k →
      st.env = .timeout :: er →
      (SR.rollback_machine i st).2 = .error .CheckinException ∧
      regFind (SR.rollback_machine i st).1.reg i = none ∧
      Ev.killSession i ∈ (SR.rollback_machine i st).1.trace) ∧
    SR.CHECKIN_WAIT_TIMEOUT_SECONDS = 5 := by
  refine ⟨?_, ?_, ?_, rfl⟩
  · intro st i s er hs ha he
    unfold SR.create_new_cartesi_machine_server
    rw [hs]
    simp only [ha, Option.isSome_none, Bool.false_eq_true, if_false]
    rw [wait_timeout i _ ({ s with address := none }) er
        (by simp only [upd, emit]; rw [updSession_found (r := st.reg) hs]; simp)
        (by simp [upd, emit, he])]
    simp [regErase_regSet]
  · intro st i s a er hs ha he
    unfold SR.snapshot_machine
    rw [hs]
    simp only [ha, Option.isNone_some, Bool.false_eq_true, if_false]
    rw [wait_timeout i _ ({ s with address := none }) er
        (by simp only [upd, emit]; rw [updSession_found (r := st.reg) hs]; simp)
        (by simp [upd, emit, he])]
    simp [regErase_regSet]
  · intro st i s a k er hs ha hk he
    unfold SR.rollback_machine
    rw [hs]
    simp only [ha, Option.isNone_some, Bool.false_eq_true, if_false, hk, reduceCtorEq]
    rw [wait_timeout i _ ({ s with address := none }) er
        (by simp only [upd, emit]; rw [updSession_found (r := st.reg) hs]; simp)
        (by simp [upd, emit, he])]
    simp [regErase_regSet]

/-- Witness for C6 at concrete inputs: each of the three rendezvous operations
on a one-session registry whose next oracle event is a timeout. -/
theorem C6_checkin_timeout_witness :
    ((SR.create_new_cartesi_machine_server 1
        ⟨[(1, ⟨1, none, 0, none, none⟩)], [.timeout], []⟩).2 = .error .CheckinException ∧
      regFind (SR.create_new_cartesi_machine_server 1
        ⟨[(1, ⟨1, none, 0, none, none⟩)], [.timeout], []⟩).1.reg 1 = none ∧
      Ev.killSession 1 ∈ (SR.create_new_cartesi_machine_server 1
        ⟨[(1, ⟨1, none, 0, none, none⟩)], [.timeout], []⟩).1.trace) ∧
    ((SR.snapshot_machine 1
        ⟨[(1, ⟨1, some 7, 2, none, none⟩)], [.timeout], []⟩).2 = .error .CheckinException ∧
      regFind (SR.snapshot_machine 1
        ⟨[(1, ⟨1, some 7, 2, none, none⟩)], [.timeout], []⟩).1.reg 1 = none ∧
      Ev.killSession 1 ∈ (SR.snapshot_machine 1
        ⟨[(1, ⟨1, some 7, 2, none, none⟩)], [.timeout], []⟩).1.trace) ∧
    ((SR.rollback_machine 1
        ⟨[(1, ⟨1, some 7, 2, some 1, none⟩)], [.timeout], []⟩).2 = .error .CheckinException ∧
      regFind (SR.rollback_machine 1
        ⟨[(1, ⟨1, some 7, 2, some 1, none⟩)], [.timeout], []⟩).1.reg 1 = none ∧
      Ev.killSession 1 ∈ (SR.rollback_machine 1
        ⟨[(1, ⟨1, some 7, 2, some 1, none⟩)], [.timeout], []⟩).1.trace) := by
  refine ⟨?_, ?_, ?_⟩
  · exact C6_checkin_timeout.1 ⟨[(1, ⟨1, none, 0, none, none⟩)], [.timeout], []⟩ 1
      ⟨1, none, 0, none, none⟩ [] (by decide) rfl rfl
  · exact C6_checkin_timeout.2.1 ⟨[(1, ⟨1, some 7, 2, none, none⟩)], [.timeout], []⟩ 1
      ⟨1, some 7, 2, none, none⟩ 7 [] (by decide) rfl rfl
  · exact C6_checkin_timeout.2.2.1 ⟨[(1, ⟨1, some 7, 2, some 1, none⟩)], [.timeout], []⟩ 1
      ⟨1, some 7, 2, some 1, none⟩ 7 1 [] (by decide) rfl rfl rfl

/-- C8: for every fresh session id and machine request, a successful
`new_session(id, req)` leaves the newly registered session with cycle 0 and
snapshot_cycle 0 (the snapshot is taken at cycle 0 before returning). -/
theorem C8_new_session_initial (i req : Nat) (st st1 : St) (h0 : Nat)
    (hfresh : regFind st.reg i = none)
    (hok : SR.new_session i req false st = (st1, .ok h0)) :
    ∃ s1, regFind st1.reg i = some s1 ∧ s1.cycle = 0 ∧ s1.snapshot_cycle = some 0 := by
  unfold SR.new_session SR.register_session at hok
  simp only [Bool.false_eq_true, if_false] at hok
  rw [hfresh] at hok
  dsimp only at hok
  split at hok
  · simp at hok
  · rename_i stA uA heq1
    split at hok
    · simp at hok
    · rename_i stB uB heq2
      split at hok
      · simp at hok
      · rename_i stC hC heq3
        split at hok
        · simp at hok
        · rename_i stD uD heq4
          obtain ⟨sC, b, er, hfindC, henvC, hstA⟩ := create_server_ok_props i _ stA uA heq1
          simp only [regFind_regSet_self] at hfindC
          cases hfindC
          obtain ⟨sM, aM, hfindM, hadrM, hstB⟩ := create_machine_ok_props i (some req) stA stB uB heq2
          rw [hstA] at hfindM
          simp only [regSet_regSet, regFind_regSet_self] at hfindM
          cases hfindM
          have hregC : stC.reg = stB.reg := by
            have hh := hash_reg i stB
            rw [heq3] at hh
            exact hh
          obtain ⟨sS, b2, er2, hfindS, henvS, hstD⟩ := snapshot_ok_props i stC stD uD heq4
          rw [hregC, hstB, hstA] at hfindS
          simp only [regSet_regSet, regFind_regSet_self] at hfindS
          cases hfindS
          have h1 := congrArg (fun p => p.1) hok
          simp only at h1
          have hfind1 : regFind st1.reg i = some ⟨i, some b2, 0, some 0, some req⟩ := by
            rw [← h1, hstD, hregC, hstB, hstA]
            simp only [regSet_regSet]
            rw [regFind_regSet_self]
          exact ⟨_, hfind1, rfl, rfl⟩

/-- Witness for C8 at a concrete input: a fresh session created against an
empty registry with two check-ins available. -/
theorem C8_new_session_initial_witness :
    ∃ s1, regFind (SR.new_session 1 42 false
        ⟨[], [.checkin 3, .checkin 4], []⟩).1.reg 1 = some s1 ∧
      s1.cycle = 0 ∧ s1.snapshot_cycle = some 0 :=
  C8_new_session_initial 1 42 ⟨[], [.checkin 3, .checkin 4], []⟩
    ⟨[(1, ⟨1, some 4, 0, some 0, some 42⟩)], [],
      [.newServer 1, .newMachine 1, .getHash 1, .snapshotMachine 1]⟩ 0
    rfl (by decide)

theorem wait_no_rollback (i : Nat) (st : St) :
    (SR.wait_until_address i st).2 ≠ .error .RollbackException := by
  unfold SR.wait_until_address
  split
  · simp
  · split <;> simp

theorem legacy_wait_no_rollback (i : Nat) (st : St) :
    (Legacy.wait_for_session_address_communication i st).2 ≠ .error .RollbackException := by
  unfold Legacy.wait_for_session_address_communication
  split
  · simp
  · split <;> simp

/-- C7 counterexample: in the legacy registry (src/session_registry.py), a
session holding a snapshot taken at cycle 0 (exactly what NewSession
guarantees) is rejected by `rollback_machine` with `RollbackException`, because
the guard is the Python truthiness test `not snapshot_cycle` — contradicting
the claim that the error is raised exactly when the session has no snapshot. -/
theorem C7_legacy_rollback_snapshot_zero :
    (Legacy.rollback_machine 1
        ⟨[(1, ⟨1, some 7, 3, some 0, some 0⟩)], [.checkin 9], []⟩).2 =
      .error .RollbackException ∧
    (⟨1, some 7, 3, some 0, some 0⟩ : CartesiSession).snapshot_cycle ≠ none := by
  decide

/-- C7 (amended): in the src/src registry, rollback raises `RollbackException`
exactly when `snapshot_cycle` is unset; in the legacy top-level registry,
rollback raises it exactly when `snapshot_cycle` is unset or equal to 0 (a
snapshot taken at cycle 0 is treated as absent by its truthiness guard). -/
theorem C7_rollback_error_iff :
    (∀ (st : St) (i : Nat) (s : CartesiSession) (a : Nat),
      regFind st.reg i = some s → s.address = some a →
      ((SR.rollback_machine i st).2 = .error .RollbackException ↔
        s.snapshot_cycle = none)) ∧
    (∀ (st : St) (i : Nat) (s : CartesiSession) (a : Nat),
      regFind st.reg i = some s → s.address = some a →
      ((Legacy.rollback_machine i st).2 = .error .RollbackException ↔
        (s.snapshot_cycle = none ∨ s.snapshot_cycle = some 0))) := by
  constructor
  · intro st i s a hs ha
    unfold SR.rollback_machine
    rw [hs]
    simp only [ha, Option.isNone_some, Bool.false_eq_true, if_false]
    by_cases hsnap : s.snapshot_cycle = none
    · simp [hsnap]
    · rw [if_neg hsnap]
      refine ⟨fun hcontra => ?_, fun hnone => absurd hnone hsnap⟩
      exfalso
      cases hw : SR.wait_until_address i
          (upd (emit st (.rollbackMachine i)) i fun t => { t with address := none }) with
      | mk st3 res =>
        rw [hw] at hcontra
        have hne := wait_no_rollback i
          (upd (emit st (.rollbackMachine i)) i fun t => { t with address := none })
        rw [hw] at hne
        cases res with
        | error e =>
          dsimp only at hcontra
          simp only at hne
          exact hne (by rw [hcontra])
        | ok u => simp at hcontra
  · intro st i s a hs ha
    unfold Legacy.rollback_machine
    rw [hs]
    simp only [ha, Option.isNone_some, Bool.false_eq_true, if_false]
    by_cases htr : s.snapshot_cycle = none ∨ s.snapshot_cycle = some 0
    · simp [htr]
    · rw [if_neg htr]
      refine ⟨fun hcontra => ?_, fun hc => absurd hc htr⟩
      exact absurd hcontra (legacy_wait_no_rollback i _)

/-- Witness for C7 at concrete inputs: a session whose snapshot was taken at
cycle 0 — the src/src rollback does not raise `RollbackException`, while the
legacy rollback does. -/
theorem C7_rollback_error_iff_witness :
    ((SR.rollback_machine 1
        ⟨[(1, ⟨1, some 7, 3, some 0, some 0⟩)], [.checkin 9], []⟩).2 =
          .error .RollbackException ↔
      (⟨1, some 7, 3, some 0, some 0⟩ : CartesiSession).snapshot_cycle = none) ∧
    ((Legacy.rollback_machine 1
        ⟨[(1, ⟨1, some 7, 3, some 0, some 0⟩)], [.checkin 9], []⟩).2 =
          .error .RollbackException ↔
      ((⟨1, some 7, 3, some 0, some 0⟩ : CartesiSession).snapshot_cycle = none ∨
       (⟨1, some 7, 3, some 0, some 0⟩ : CartesiSession).snapshot_cycle = some 0)) :=
  ⟨C7_rollback_error_iff.1 ⟨[(1, ⟨1, some 7, 3, some 0, some 0⟩)], [.checkin 9], []⟩ 1
      ⟨1, some 7, 3, some 0, some 0⟩ 7 (by decide) rfl,
   C7_rollback_error_iff.2 ⟨[(1, ⟨1, some 7, 3, some 0, some 0⟩)], [.checkin 9], []⟩ 1
      ⟨1, some 7, 3, some 0, some 0⟩ 7 (by decide) rfl⟩

/-- C10 counterexample: the legacy `run_session` (src/session_registry.py)
executes `final_cycles.pop(0)` on the caller-supplied list object, so after a
call with `[5]` the caller's list is empty — the claim that the caller's
argument is never mutated fails on this variant. -/
theorem C10_legacy_pop_mutates :
    (Legacy.run_session 1 [5]
        ⟨[(1, ⟨1, some 7, 0, none, some 0⟩)], [.checkin 9], []⟩).2.1 ≠ [5] := by
  decide

/-- C10 (amended): the src/src `run_session` consumes cycles from a private
copy and returns the caller list object unchanged on every path; the legacy
`run_session` pops the first element off the caller's list once its id and
address checks pass, leaving the caller with the tail of the list. -/
theorem C10_caller_list :
    (∀ (i : Nat) (cs : List Nat) (st : St), (SR.run_session i cs st).2.1 = cs) ∧
    (∀ (i : Nat) (cs : List Nat) (st : St) (s : CartesiSession) (a : Nat),
      regFind st.reg i = some s → s.address = some a →
      (Legacy.run_session i cs st).2.1 = cs.drop 1) := by
  constructor
  · intro i cs st
    unfold SR.run_session
    repeat' first
    | rfl
    | split
  · intro i cs st s a hs ha
    unfold Legacy.run_session
    rw [hs]
    simp only [ha, Option.isNone_some, Bool.false_eq_true, if_false]
    cases cs with
    | nil => rfl
    | cons c1 rest =>
      simp only [List.drop_succ_cons, List.drop_zero]
      repeat' first
      | rfl
      | split

/-- Witness for C10 at concrete inputs: the src/src variant returns the
caller's `[5]` unchanged; the legacy variant leaves the caller with `[]`. -/
theorem C10_caller_list_witness :
    (SR.run_session 1 [5]
        ⟨[(1, ⟨1, some 7, 0, none, some 0⟩)], [.checkin 9], []⟩).2.1 = [5] ∧
    (Legacy.run_session 1 [5]
        ⟨[(1, ⟨1, some 7, 0, none, some 0⟩)], [.checkin 9], []⟩).2.1 = [5].drop 1 :=
  ⟨C10_caller_list.1 1 [5] ⟨[(1, ⟨1, some 7, 0, none, some 0⟩)], [.checkin 9], []⟩,
   C10_caller_list.2 1 [5] ⟨[(1, ⟨1, some 7, 0, none, some 0⟩)], [.checkin 9], []⟩
     ⟨1, some 7, 0, none, some 0⟩ 7 (by decide) rfl⟩

/-!
Dispatcher lemmas and claims.
-/

@[simp]
theorem jget_jset_self (t : List (Nat × MS.SessionJob)) (i : Nat) (s : MS.SessionJob) :
    MS.jget (MS.jset t i s) i = some s := by
  induction t with
  | nil => simp [MS.jset, MS.jget]
  | cons p t ih =>
    obtain ⟨k, u⟩ := p
    by_cases hk : k = i
    · simp [MS.jset, hk, MS.jget]
    · simp [MS.jset, hk, MS.jget, ih]

/-- C3: when `__try_job__` finds an existing slot whose future is finished, a
poll whose request equals the stored fingerprint resets the slot and returns
the future's result — the handler re-raises the stored exception if the
background job failed — while a poll whose request differs resets the slot and
raises `NotReadyException` without returning the completed result. -/
theorem C3_finished_future_delivery (st : MS.DState) (i req : Nat)
    (slot : MS.SessionJob) (f : MS.Future) (work : Except Nat Nat)
    (hslot : MS.jget st.job i = some slot) (hfut : slot.job_future = some f)
    (hdone : f.done = true) :
    (slot.job_hash = some req →
      MS.try_job_rpc i req work st =
        (⟨MS.jset st.job i ⟨none, none⟩, st.nextId⟩, f.result.mapError MS.DisErr.JobError)) ∧
    (slot.job_hash ≠ some req →
      MS.try_job_rpc i req work st =
        (⟨MS.jset st.job i ⟨none, none⟩, st.nextId⟩, .error .NotReadyException)) := by
  constructor
  · intro hmatch
    unfold MS.try_job_rpc MS.try_job
    rw [hslot]
    dsimp only
    rw [hfut]
    dsimp only
    rw [hdone]
    simp only [if_pos hmatch, if_pos rfl]
    cases hres : f.result <;> simp [hres, Except.mapError]
  · intro hmiss
    unfold MS.try_job_rpc MS.try_job
    rw [hslot]
    dsimp only
    rw [hfut]
    dsimp only
    rw [hdone]
    simp only [if_pos rfl, if_neg hmiss]
    simp

/-- Witness for C3 at concrete inputs: a finished successful future delivered
on a matching retry, a finished failed future re-raised on a matching retry,
and a mismatching request refused with the slot reset. -/
theorem C3_finished_future_delivery_witness :
    (MS.try_job_rpc 1 7 (.ok 0)
        ⟨[(1, ⟨some 7, some ⟨0, true, .ok 42⟩⟩)], 1⟩ =
      (⟨[(1, ⟨none, none⟩)], 1⟩, .ok 42)) ∧
    (MS.try_job_rpc 1 7 (.ok 0)
        ⟨[(1, ⟨some 7, some ⟨0, true, .error 13⟩⟩)], 1⟩ =
      (⟨[(1, ⟨none, none⟩)], 1⟩, .error (.JobError 13))) ∧
    (MS.try_job_rpc 1 8 (.ok 0)
        ⟨[(1, ⟨some 7, some ⟨0, true, .ok 42⟩⟩)], 1⟩ =
      (⟨[(1, ⟨none, none⟩)], 1⟩, .error .NotReadyException)) := by
  refine ⟨?_, ?_, ?_⟩
  · exact (C3_finished_future_delivery ⟨[(1, ⟨some 7, some ⟨0, true, .ok 42⟩⟩)], 1⟩ 1 7
      ⟨some 7, some ⟨0, true, .ok 42⟩⟩ ⟨0, true, .ok 42⟩ (.ok 0) rfl rfl rfl).1 rfl
  · exact (C3_finished_future_delivery ⟨[(1, ⟨some 7, some ⟨0, true, .error 13⟩⟩)], 1⟩ 1 7
      ⟨some 7, some ⟨0, true, .error 13⟩⟩ ⟨0, true, .error 13⟩ (.ok 0) rfl rfl rfl).1 rfl
  · exact (C3_finished_future_delivery ⟨[(1, ⟨some 7, some ⟨0, true, .ok 42⟩⟩)], 1⟩ 1 8
      ⟨some 7, some ⟨0, true, .ok 42⟩⟩ ⟨0, true, .ok 42⟩ (.ok 0) rfl rfl rfl).2 (by decide)

theorem tj_step (i n req : Nat) (w : Except Nat Nat) (st st1 : MS.DState)
    (o : MS.TryOutcome) (hq : MS.try_job i req w st = (st1, o))
    (h1 : n ≤ st.nextId)
    (h2 : ∀ slot f, MS.jget st.job i = some slot → slot.job_future = some f →
        n ≤ f.jobId ∧ f.jobId < st.nextId) :
    (o = .notReady →
      n ≤ st1.nextId ∧
      (∀ slot f, MS.jget st1.job i = some slot → slot.job_future = some f →
          n ≤ f.jobId ∧ f.jobId < st1.nextId)) ∧
    (∀ f, o = .delivered f →
      n ≤ f.jobId ∧ f.jobId + 1 ≤ st1.nextId ∧
      (∀ slot g, MS.jget st1.job i = some slot → slot.job_future = some g →
          f.jobId + 1 ≤ g.jobId ∧ g.jobId < st1.nextId)) := by
  unfold MS.try_job MS.submit at hq
  split at hq
  · rename_i slot hslot
    split at hq
    · rename_i hfut
      have ha := congrArg (fun p => p.1) hq
      have hb := congrArg (fun p => p.2) hq
      simp only at ha hb
      constructor
      · intro _
        constructor
        · rw [← ha]; simp; omega
        · intro slot2 f2 hslot2 hfut2
          rw [← ha] at hslot2
          simp only [jget_jset_self] at hslot2
          cases hslot2
          simp only at hfut2
          cases hfut2
          rw [← ha]
          simp
          omega
      · intro f hf
        rw [hf] at hb
        simp at hb
    · rename_i f hfut
      split at hq
      · split at hq
        · have ha := congrArg (fun p => p.1) hq
          have hb := congrArg (fun p => p.2) hq
          simp only at ha hb
          constructor
          · intro hcontra
            rw [← hb] at hcontra
            simp at hcontra
          · intro g hg
            rw [hg] at hb
            have hfg : f = g := by simpa using hb
            subst hfg
            obtain ⟨hn, hlt⟩ := h2 slot f hslot hfut
            refine ⟨hn, ?_, ?_⟩
            · rw [← ha]; simp; omega
            · intro slot2 g2 hslot2 hfut2
              rw [← ha] at hslot2
              simp only [jget_jset_self] at hslot2
              cases hslot2
              simp at hfut2
        · have ha := congrArg (fun p => p.1) hq
          have hb := congrArg (fun p => p.2) hq
          simp only at ha hb
          constructor
          · intro _
            constructor
            · rw [← ha]; exact h1
            · intro slot2 f2 hslot2 hfut2
              rw [← ha] at hslot2
              simp only [jget_jset_self] at hslot2
              cases hslot2
              simp at hfut2
          · intro g hg
            rw [hg] at hb
            simp at hb
      · have ha := congrArg (fun p => p.1) hq
        have hb := congrArg (fun p => p.2) hq
        simp only at ha hb
        constructor
        · intro _
          rw [← ha]
          exact ⟨h1, h2⟩
        · intro g hg
          rw [hg] at hb
          simp at hb
  · rename_i hslot
    have ha := congrArg (fun p => p.1) hq
    have hb := congrArg (fun p => p.2) hq
    simp only at ha hb
    constructor
    · intro _
      constructor
      · rw [← ha]; simp; omega
      · intro slot2 f2 hslot2 hfut2
        rw [← ha] at hslot2
        simp only [jget_jset_self] at hslot2
        cases hslot2
        simp only at hfut2
        cases hfut2
        rw [← ha]
        simp
        omega
    · intro f hf
      rw [hf] at hb
      simp at hb

theorem runPolls_nodup_aux (i : Nat) (ps : List MS.Poll) :
    ∀ (n : Nat) (st : MS.DState),
    n ≤ st.nextId →
    (∀ slot f, MS.jget st.job i = some slot → slot.job_future = some f →
        n ≤ f.jobId ∧ f.jobId < st.nextId) →
    (MS.deliveredIds (MS.runPolls i ps st).2).Nodup ∧
    (∀ j, j ∈ MS.deliveredIds (MS.runPolls i ps st).2 → n ≤ j) := by
  induction ps with
  | nil =>
    intro n st h1 h2
    simp [MS.runPolls, MS.deliveredIds]
  | cons p ps ih =>
    intro n st h1 h2
    cases hq : MS.try_job i p.req p.work st with
    | mk st1 o =>
      have hstep := tj_step i n p.req p.work st st1 o hq h1 h2
      have hrw : MS.runPolls i (p :: ps) st =
          ((MS.runPolls i ps st1).1, o :: (MS.runPolls i ps st1).2) := by
        rw [MS.runPolls, hq]
      rw [hrw]
      cases o with
      | notReady =>
        obtain ⟨h1n, h2n⟩ := hstep.1 rfl
        have hrec := ih n st1 h1n h2n
        simpa [MS.deliveredIds] using hrec
      | delivered f =>
        obtain ⟨hn, hnext, hslotlb⟩ := hstep.2 f rfl
        have hlb : ∀ slot g, MS.jget st1.job i = some slot →
            slot.job_future = some g → f.jobId + 1 ≤ g.jobId ∧ g.jobId < st1.nextId :=
          hslotlb
        have hrec := ih (f.jobId + 1) st1 hnext hlb
        constructor
        · simp only [MS.deliveredIds, List.filterMap_cons]
          refine List.Nodup.cons ?_ hrec.1
          intro hmem
          have := hrec.2 f.jobId hmem
          omega
        · intro j hj
          simp only [MS.deliveredIds, List.filterMap_cons] at hj
          rcases List.mem_cons.mp hj with hj1 | hj2
          · omega
          · have := hrec.2 j hj2
            omega

/-- C4: the result of one background job is delivered to a client at most
once: over any sequence of polls of the dispatcher for one session, the job
ids of the futures handed back to clients contain no duplicate — after a
delivery the slot is reset, so later polls raise `NotReady` or start a fresh
job, never returning the same future again. -/
theorem C4_at_most_once (i : Nat) (ps : List MS.Poll) (st : MS.DState)
    (hwf : MS.slotWfB i st = true) :
    (MS.deliveredIds (MS.runPolls i ps st).2).Nodup := by
  refine (runPolls_nodup_aux i ps 0 st (Nat.zero_le _) ?_).1
  intro slot f hslot hfut
  refine ⟨Nat.zero_le _, ?_⟩
  unfold MS.slotWfB at hwf
  rw [hslot] at hwf
  dsimp only at hwf
  rw [hfut] at hwf
  simpa using hwf

/-- Witness for C4 at a concrete input: three polls — submit, deliver, fresh
submit — deliver exactly one future, with no duplicates. -/
theorem C4_at_most_once_witness :
    (MS.deliveredIds (MS.runPolls 1
      [⟨5, .ok 3⟩, ⟨5, .ok 4⟩, ⟨6, .ok 8⟩] ⟨[], 0⟩).2).Nodup :=
  C4_at_most_once 1 [⟨5, .ok 3⟩, ⟨5, .ok 4⟩, ⟨6, .ok 8⟩] ⟨[], 0⟩ (by decide)

/-- C5: evaluation of `__try_job__` at the failing input.  The claim says the
handler raises NotReady immediately after submitting and does not wait for the
job; in the source the submission happens inside `with
futures.ThreadPoolExecutor() as executor:`, and the `raise NotReadyException`
unwinds through the context manager, whose exit calls `shutdown(wait=True)`
and joins the submitted job before the exception can reach the client.  The
embedding therefore stores a future that is already completed (`done = true`,
result present) at the moment `notReady` is returned — on both submit paths
(no slot yet, and an existing slot with no pending future) the caller has
waited for the background job to finish. -/
theorem C5_submit_waits_for_job :
    MS.try_job 1 7 (.ok 99) ⟨[], 0⟩ =
      (⟨[(1, { job_hash := some 7,
               job_future := some { jobId := 0, done := true, result := .ok 99 } })], 1⟩,
        .notReady) ∧
    MS.try_job 1 7 (.ok 99) ⟨[(1, ⟨none, none⟩)], 0⟩ =
      (⟨[(1, { job_hash := some 7,
               job_future := some { jobId := 0, done := true, result := .ok 99 } })], 1⟩,
        .notReady) := by
  constructor
  · rfl
  · rfl

/-!
Invariant-preservation lemmas for C9.
-/

theorem inv_reg_eq (st2 st : St) (h : st2.reg = st.reg) (hinv : SR.snapInv st) :
    SR.snapInv st2 := by
  intro j s hj k hk
  rw [h] at hj
  exact hinv j s hj k hk

theorem inv_erase (st : St) (i : Nat) (hinv : SR.snapInv st) :
    SR.snapInv { st with reg := regErase st.reg i } := by
  intro j s hj k hk
  simp only at hj
  by_cases hji : j = i
  · subst hji
    rw [regFind_regErase_self] at hj
    cases hj
  · rw [regFind_regErase_ne _ _ _ hji] at hj
    exact hinv j s hj k hk

theorem inv_upd (st : St) (i : Nat) (f : CartesiSession → CartesiSession)
    (hinv : SR.snapInv st)
    (hf : ∀ t, (∀ k, t.snapshot_cycle = some k → k ≤ t.cycle) →
        (∀ k, (f t).snapshot_cycle = some k → k ≤ (f t).cycle)) :
    SR.snapInv (upd st i f) := by
  intro j s hj k hk
  simp only [upd] at hj
  cases hfind : regFind st.reg i with
  | none =>
    rw [updSession_not_found _ _ _ hfind] at hj
    exact hinv j s hj k hk
  | some t =>
    rw [updSession_found hfind] at hj
    by_cases hji : j = i
    · subst hji
      rw [regFind_regSet_self] at hj
      cases hj
      exact hf t (hinv _ t hfind) k hk
    · rw [regFind_regSet_ne _ _ _ _ hji] at hj
      exact hinv j s hj k hk

theorem inv_remove (i : Nat) (st : St) (hinv : SR.snapInv st) :
    SR.snapInv (SR._remove_session i st) :=
  inv_reg_eq _ { st with reg := regErase st.reg i }
    (by simp [SR._remove_session, SR.kill_session, emit]) (inv_erase st i hinv)

theorem inv_wait (i : Nat) (st : St) (hinv : SR.snapInv st) :
    SR.snapInv (SR.wait_until_address i st).1 := by
  unfold SR.wait_until_address
  split
  · exact hinv
  · split
    · exact inv_remove i st hinv
    · rename_i er heq
      exact inv_remove i { st with env := er } (inv_reg_eq _ st rfl hinv)
    · rename_i a er heq
      exact inv_upd { st with env := er } i _ (inv_reg_eq _ st rfl hinv)
        (fun t ht k hk => ht k hk)

theorem inv_create_server (i : Nat) (st : St) (hinv : SR.snapInv st) :
    SR.snapInv (SR.create_new_cartesi_machine_server i st).1 := by
  unfold SR.create_new_cartesi_machine_server
  split
  · exact hinv
  · split
    · exact hinv
    · exact inv_wait i _ (inv_upd _ i _ (inv_reg_eq _ st (by simp [emit]) hinv)
        (fun t ht k hk => ht k hk))

theorem inv_create_machine (i : Nat) (req : Option Nat) (st : St) (hinv : SR.snapInv st) :
    SR.snapInv (SR.create_machine i req st).1 := by
  unfold SR.create_machine
  split
  · exact hinv
  · split
    · exact hinv
    · exact inv_upd _ i _ (inv_reg_eq _ st (by simp [emit]) hinv)
        (fun t ht k hk => ht k hk)

theorem inv_hash (i : Nat) (st : St) (hinv : SR.snapInv st) :
    SR.snapInv (SR.get_machine_root_hash i st).1 :=
  inv_reg_eq _ st (hash_reg i st) hinv

theorem inv_snapshot (i : Nat) (st : St) (hinv : SR.snapInv st) :
    SR.snapInv (SR.snapshot_machine i st).1 := by
  unfold SR.snapshot_machine
  split
  · exact hinv
  · split
    · exact hinv
    · have hwait : SR.snapInv (SR.wait_until_address i
          (upd (emit st (.snapshotMachine i)) i fun t => { t with address := none })).1 :=
        inv_wait i _ (inv_upd _ i _ (inv_reg_eq _ st (by simp [emit]) hinv)
          (fun t ht k hk => ht k hk))
      split
      · rename_i st3 e heq
        rw [heq] at hwait
        exact hwait
      · rename_i st3 u heq
        rw [heq] at hwait
        exact inv_upd st3 i _ hwait
          (fun t _ k hk => Nat.le_of_eq (Option.some.inj hk).symm)

theorem inv_rollback (i : Nat) (st : St) (hinv : SR.snapInv st) :
    SR.snapInv (SR.rollback_machine i st).1 := by
  unfold SR.rollback_machine
  split
  · exact hinv
  · split
    · exact hinv
    · split
      · exact hinv
      · have hwait : SR.snapInv (SR.wait_until_address i
            (upd (emit st (.rollbackMachine i)) i fun t => { t with address := none })).1 :=
          inv_wait i _ (inv_upd _ i _ (inv_reg_eq _ st (by simp [emit]) hinv)
            (fun t ht k hk => ht k hk))
        split
        · rename_i st3 e heq
          rw [heq] at hwait
          exact hwait
        · rename_i st3 u heq
          rw [heq] at hwait
          exact inv_upd st3 i _ hwait (fun t _ k hk => nomatch hk)

theorem inv_recreate (i : Nat) (st : St) (hinv : SR.snapInv st) :
    SR.snapInv (SR.recreate_machine i st).1 := by
  unfold SR.recreate_machine
  split
  · exact hinv
  · rename_i s hs
    have hzero : SR.snapInv (upd (if s.address.isSome then emit st (.shutdownServer i) else st)
        i fun t => { t with address := none, cycle := 0, snapshot_cycle := none }) :=
      inv_upd _ i _ (inv_reg_eq _ st (by split <;> simp [emit]) hinv)
        (fun t _ k hk => nomatch hk)
    have hserver := inv_create_server i _ hzero
    split
    · rename_i st3 e heq
      rw [heq] at hserver
      exact hserver
    · rename_i st3 u heq
      rw [heq] at hserver
      split
      · exact hserver
      · exact inv_create_machine i _ st3 hserver

theorem inv_rau (i c : Nat) (st : St) (hinv : SR.snapInv st)
    (hsl : ∀ s k, regFind st.reg i = some s → s.snapshot_cycle = some k → k ≤ c) :
    SR.snapInv (SR.run_and_update_registry_cycle i c st).1 := by
  unfold SR.run_and_update_registry_cycle SR.run_machine
  split
  · exact hinv
  · rename_i s hs
    split
    · exact hinv
    · intro j t hj k hk
      simp only [upd, emit] at hj
      rw [updSession_found (r := st.reg) hs] at hj
      by_cases hji : j = i
      · subst hji
        rw [regFind_regSet_self] at hj
        cases hj
        exact hsl s k hs hk
      · rw [regFind_regSet_ne _ _ _ _ hji] at hj
        exact hinv j t hj k hk

theorem inv_step_update (i : Nat) (st : St) (hinv : SR.snapInv st) :
    SR.snapInv (SR.step_and_update_registry_cycle i st).1 := by
  unfold SR.step_and_update_registry_cycle
  split
  · exact hinv
  · split
    · exact hinv
    · exact inv_upd _ i _ (inv_reg_eq _ st (by simp [emit]) hinv)
        (fun t ht k hk => Nat.le_succ_of_le (ht k hk))

theorem inv_seek (i c : Nat) (st : St) (hinv : SR.snapInv st) :
    SR.snapInv (SR.run_machine_to_desired_cyle i c st).1 := by
  unfold SR.run_machine_to_desired_cyle
  split
  · exact hinv
  · rename_i s hs
    split
    · exact hinv
    · split
      · rename_i st1 e heq
        split at heq
        · split at heq
          · split at heq
            · have hrb := inv_rollback i st hinv
              rw [heq] at hrb
              exact hrb
            · have hrc := inv_recreate i st hinv
              rw [heq] at hrc
              exact hrc
          · have hrc := inv_recreate i st hinv
            rw [heq] at hrc
            exact hrc
        · simp at heq
      · rename_i st1 u heq
        have hst1inv : SR.snapInv st1 ∧
            (∀ t k, regFind st1.reg i = some t → t.snapshot_cycle = some k → k ≤ c) := by
          split at heq
          · split at heq
            · split at heq
              · obtain ⟨s2, k3, b, er, hfind2, hk3, henv2, hst1⟩ :=
                  rollback_ok_props i st st1 u heq
                constructor
                · rw [hst1]
                  exact inv_reg_eq _ { st with
                      reg := regSet st.reg i
                        { s2 with address := some b, cycle := k3, snapshot_cycle := none } }
                    rfl (by
                      intro j t hj k hk
                      simp only at hj
                      by_cases hji : j = i
                      · subst hji
                        rw [regFind_regSet_self] at hj
                        cases hj
                        simp at hk
                      · rw [regFind_regSet_ne _ _ _ _ hji] at hj
                        exact hinv j t hj k hk)
                · intro t k ht hk
                  rw [hst1] at ht
                  simp only [regFind_regSet_self] at ht
                  cases ht
                  simp at hk
              · obtain ⟨s2, b, er, hfind2, henv2, hst1⟩ := recreate_ok_props i st st1 u heq
                constructor
                · have hrc := inv_recreate i st hinv
                  rw [heq] at hrc
                  exact hrc
                · intro t k ht hk
                  rw [hst1] at ht
                  simp only [regFind_regSet_self] at ht
                  cases ht
                  simp at hk
            · obtain ⟨s2, b, er, hfind2, henv2, hst1⟩ := recreate_ok_props i st st1 u heq
              constructor
              · have hrc := inv_recreate i st hinv
                rw [heq] at hrc
                exact hrc
              · intro t k ht hk
                rw [hst1] at ht
                simp only [regFind_regSet_self] at ht
                cases ht
                simp at hk
          · rename_i hnlt
            have hst1 := congrArg (fun p => p.1) heq
            simp only at hst1
            constructor
            · rw [← hst1]
              exact hinv
            · intro t k ht hk
              rw [← hst1] at ht
              rw [hs] at ht
              cases ht
              have := hinv i s hs k hk
              omega
        exact inv_rau i c st1 hst1inv.1 (fun t k ht hk => hst1inv.2 t k ht hk)

theorem ascending_head (a : Nat) (l : List Nat)
    (h : Utils.ascending (a :: l) = true) : ∀ x ∈ l, a < x := by
  induction l generalizing a with
  | nil => intro x hx; simp at hx
  | cons b bs ih =>
    intro x hx
    have hab : a < b ∧ Utils.ascending (b :: bs) = true := by
      simpa [Utils.ascending, Bool.and_eq_true] using h
    rcases List.mem_cons.mp hx with hx1 | hx2
    · subst hx1
      exact hab.1
    · exact Nat.lt_trans hab.1 (ih b hab.2 x hx2)

theorem validate_ascending (cs : List Nat) (u : Unit)
    (h : Utils.validate_cycles cs = .ok u) : Utils.ascending cs = true := by
  unfold Utils.validate_cycles at h
  by_cases h1 : cs.isEmpty
  · simp [h1] at h
  · rw [if_neg h1] at h
    by_cases h2 : Utils.ascending cs
    · exact h2
    · simp [h2] at h

theorem inv_run_loop (i : Nat) (cs : List Nat) :
    ∀ (st : St), SR.snapInv st →
    (∀ s k, regFind st.reg i = some s → s.snapshot_cycle = some k → ∀ c ∈ cs, k ≤ c) →
    SR.snapInv (SR.run_loop i cs st).1 := by
  induction cs with
  | nil =>
    intro st hinv hsl
    exact hinv
  | cons c cs ih =>
    intro st hinv hsl
    rw [SR.run_loop]
    split
    · rename_i st1 e heq
      have hrau := inv_rau i c st hinv
        (fun s k hsk hk => hsl s k hsk hk c (List.mem_cons_self c cs))
      rw [heq] at hrau
      exact hrau
    · rename_i st1 v heq
      obtain ⟨s, a, hfind, hadr, hst1, hv⟩ := rau_ok_props i c st st1 v heq
      have hinv1 : SR.snapInv st1 := by
        have hrau := inv_rau i c st hinv
          (fun s k hsk hk => hsl s k hsk hk c (List.mem_cons_self c cs))
        rw [heq] at hrau
        exact hrau
      split
      · rename_i st2 e heq2
        have hh := inv_hash i st1 hinv1
        rw [heq2] at hh
        exact hh
      · rename_i st2 h2 heq2
        have hreg2 : st2.reg = st1.reg := by
          have hh := hash_reg i st1
          rw [heq2] at hh
          exact hh
        split
        · rename_i st3 e heq3
          have hrec := ih st2 (inv_reg_eq _ st1 hreg2 hinv1) (by
            intro t k ht hk cc hcc
            rw [hreg2, hst1] at ht
            simp only [regFind_regSet_self] at ht
            cases ht
            exact hsl s k hfind hk cc (List.mem_cons_of_mem c hcc))
          rw [heq3] at hrec
          exact hrec
        · rename_i st3 p heq3
          have hrec := ih st2 (inv_reg_eq _ st1 hreg2 hinv1) (by
            intro t k ht hk cc hcc
            rw [hreg2, hst1] at ht
            simp only [regFind_regSet_self] at ht
            cases ht
            exact hsl s k hfind hk cc (List.mem_cons_of_mem c hcc))
          rw [heq3] at hrec
          exact hrec

theorem inv_run_session (i : Nat) (cs : List Nat) (st : St)
    (hasc : Utils.ascending cs = true) (hinv : SR.snapInv st) :
    SR.snapInv (SR.run_session i cs st).1 := by
  unfold SR.run_session
  split
  · exact hinv
  · rename_i s hs
    split
    · exact hinv
    · split
      · exact hinv
      · rename_i c1 rest heqmap
        rw [List.map_id'] at heqmap
        split
        · rename_i stA e heqA
          have h := inv_seek i c1 st hinv
          rw [heqA] at h
          exact h
        · rename_i stA v heqA
          have hinvA : SR.snapInv stA := by
            have h := inv_seek i c1 st hinv
            rw [heqA] at h
            exact h
          obtain ⟨sA, aA, hfindA, hcycA, hadrA, hv⟩ := seek_ok_props i c1 st stA v heqA
          split
          · rename_i stB e heqB
            have h := inv_snapshot i stA hinvA
            rw [heqB] at h
            exact h
          · rename_i stB uB heqB
            have hinvB : SR.snapInv stB := by
              have h := inv_snapshot i stA hinvA
              rw [heqB] at h
              exact h
            obtain ⟨sB0, b, er, hfindB0, henvA, hstB⟩ := snapshot_ok_props i stA stB uB heqB
            rw [hfindA] at hfindB0
            cases hfindB0
            split
            · rename_i stC e heqC
              have h := inv_hash i stB hinvB
              rw [heqC] at h
              exact h
            · rename_i stC hC heqC
              have hregC : stC.reg = stB.reg := by
                have hh := hash_reg i stB
                rw [heqC] at hh
                exact hh
              have hslC : ∀ t k, regFind stC.reg i = some t → t.snapshot_cycle = some k →
                  ∀ c ∈ rest, k ≤ c := by
                intro t k ht hk cc hcc
                rw [hregC, hstB] at ht
                simp only [regFind_regSet_self] at ht
                cases ht
                have h1 : sA.cycle = k := Option.some.inj hk
                have h2 := ascending_head c1 rest (by rw [heqmap] at hasc; exact hasc) cc hcc
                omega
              split
              · rename_i stD e heqD
                have h := inv_run_loop i rest stC (inv_reg_eq _ stB hregC hinvB) hslC
                rw [heqD] at h
                exact h
              · rename_i stD ss hh heqD
                have h := inv_run_loop i rest stC (inv_reg_eq _ stB hregC hinvB) hslC
                rw [heqD] at h
                exact h

theorem inv_step_session (i initial : Nat) (st : St) (hinv : SR.snapInv st) :
    SR.snapInv (SR.step_session i initial st).1 := by
  unfold SR.step_session
  split
  · exact hinv
  · rename_i s hs
    split
    · exact hinv
    · split
      · rename_i st1 e heq
        split at heq
        · have h := inv_seek i initial st hinv
          rw [heq] at h
          exact h
        · simp at heq
      · rename_i st1 u heq
        have hinv1 : SR.snapInv st1 := by
          split at heq
          · have h := inv_seek i initial st hinv
            rw [heq] at h
            exact h
          · have h1 := congrArg (fun p => p.1) heq
            simp only at h1
            rw [← h1]
            exact hinv
        exact inv_step_update i st1 hinv1

theorem inv_read (i c : Nat) (st : St) (hinv : SR.snapInv st) :
    SR.snapInv (SR.session_read_mem i c st).1 := by
  unfold SR.session_read_mem
  split
  · exact hinv
  · rename_i s hs
    split
    · exact hinv
    · split
      · rename_i st1 e heq
        split at heq
        · have h := inv_seek i c st hinv
          rw [heq] at h
          exact h
        · simp at heq
      · rename_i st1 u heq
        have hinv1 : SR.snapInv st1 := by
          split at heq
          · have h := inv_seek i c st hinv
            rw [heq] at h
            exact h
          · have h1 := congrArg (fun p => p.1) heq
            simp only at h1
            rw [← h1]
            exact hinv
        exact inv_reg_eq _ st1 (by simp [emit]) hinv1

theorem inv_write (i c : Nat) (st : St) (hinv : SR.snapInv st) :
    SR.snapInv (SR.session_write_mem i c st).1 := by
  unfold SR.session_write_mem
  split
  · exact hinv
  · rename_i s hs
    split
    · exact hinv
    · split
      · rename_i st1 e heq
        split at heq
        · have h := inv_seek i c st hinv
          rw [heq] at h
          exact h
        · simp at heq
      · rename_i st1 u heq
        have hinv1 : SR.snapInv st1 := by
          split at heq
          · have h := inv_seek i c st hinv
            rw [heq] at h
            exact h
          · have h1 := congrArg (fun p => p.1) heq
            simp only at h1
            rw [← h1]
            exact hinv
        exact inv_reg_eq _ st1 (by simp [emit]) hinv1

theorem inv_proof (i c : Nat) (st : St) (hinv : SR.snapInv st) :
    SR.snapInv (SR.session_get_proof i c st).1 := by
  unfold SR.session_get_proof
  split
  · exact hinv
  · rename_i s hs
    split
    · exact hinv
    · split
      · rename_i st1 e heq
        split at heq
        · have h := inv_seek i c st hinv
          rw [heq] at h
          exact h
        · simp at heq
      · rename_i st1 u heq
        have hinv1 : SR.snapInv st1 := by
          split at heq
          · have h := inv_seek i c st hinv
            rw [heq] at h
            exact h
          · have h1 := congrArg (fun p => p.1) heq
            simp only at h1
            rw [← h1]
            exact hinv
        exact inv_reg_eq _ st1 (by simp [emit]) hinv1

theorem inv_register (i : Nat) (force : Bool) (st : St) (hinv : SR.snapInv st) :
    SR.snapInv (SR.register_session i force st).1 := by
  unfold SR.register_session
  split
  · exact hinv
  · intro j t hj k hk
    simp only at hj
    by_cases hji : j = i
    · subst hji
      rw [regFind_regSet_self] at hj
      cases hj
      simp at hk
    · rw [regFind_regSet_ne _ _ _ _ hji] at hj
      exact hinv j t hj k hk

theorem inv_new_session (i req : Nat) (force : Bool) (st : St) (hinv : SR.snapInv st) :
    SR.snapInv (SR.new_session i req force st).1 := by
  unfold SR.new_session
  have hst0 : SR.snapInv (if force then
      (match regFind st.reg i with
        | some s => if s.address.isSome then emit st (.shutdownServer i) else st
        | none => st)
      else st) := by
    refine inv_reg_eq _ st ?_ hinv
    split
    · split
      · split <;> simp [emit]
      · rfl
    · rfl
  split
  · rename_i st1 e heq
    have h := inv_register i force _ hst0
    rw [heq] at h
    exact h
  · rename_i st1 u heq
    have hinv1 : SR.snapInv st1 := by
      have h := inv_register i force _ hst0
      rw [heq] at h
      exact h
    split
    · rename_i st2 e heq2
      have h := inv_create_server i st1 hinv1
      rw [heq2] at h
      exact h
    · rename_i st2 u2 heq2
      have hinv2 : SR.snapInv st2 := by
        have h := inv_create_server i st1 hinv1
        rw [heq2] at h
        exact h
      split
      · rename_i st3 e heq3
        have h := inv_create_machine i (some req) st2 hinv2
        rw [heq3] at h
        exact h
      · rename_i st3 u3 heq3
        have hinv3 : SR.snapInv st3 := by
          have h := inv_create_machine i (some req) st2 hinv2
          rw [heq3] at h
          exact h
        split
        · rename_i st4 e heq4
          have h := inv_hash i st3 hinv3
          rw [heq4] at h
          exact h
        · rename_i st4 h4 heq4
          have hinv4 : SR.snapInv st4 := by
            have h := inv_hash i st3 hinv3
            rw [heq4] at h
            exact h
          split
          · rename_i st5 e heq5
            have h := inv_snapshot i st4 hinv4
            rw [heq5] at h
            exact h
          · rename_i st5 u5 heq5
            have h := inv_snapshot i st4 hinv4
            rw [heq5] at h
            exact h

/-- C9: every externally observable registry operation (new, run, step, read,
write, proof, snapshot, rollback, recreate) preserves the snapshot-ordering
invariant: whenever both `snapshot_cycle` and `cycle` are set on a session,
`snapshot_cycle ≤ cycle`, on every state the operation produces (success or
error). -/
theorem C9_snapshot_ordering (o : SR.Op) (st : St) (hinv : SR.snapInv st) :
    SR.snapInv (SR.applyOp o st).1 := by
  cases o with
  | newOp i req force =>
    simp only [SR.applyOp]
    exact inv_new_session i req force st hinv
  | runOp i cs =>
    simp only [SR.applyOp]
    split
    · exact hinv
    · rename_i u hval
      exact inv_run_session i cs st (validate_ascending cs u hval) hinv
  | stepOp i initial =>
    simp only [SR.applyOp]
    split
    · exact hinv
    · exact inv_step_session i initial st hinv
  | readOp i c =>
    simp only [SR.applyOp]
    exact inv_read i c st hinv
  | writeOp i c =>
    simp only [SR.applyOp]
    exact inv_write i c st hinv
  | proofOp i c =>
    simp only [SR.applyOp]
    exact inv_proof i c st hinv
  | snapshotOp i =>
    simp only [SR.applyOp]
    intro j t hj k hk
    exact inv_snapshot i st hinv j t hj k hk
  | rollbackOp i =>
    simp only [SR.applyOp]
    intro j t hj k hk
    exact inv_rollback i st hinv j t hj k hk
  | recreateOp i =>
    simp only [SR.applyOp]
    intro j t hj k hk
    exact inv_recreate i st hinv j t hj k hk

/-- Witness for C9 at a concrete input: a run operation over cycles `[2, 5]`
on a one-session registry satisfying the invariant. -/
theorem C9_snapshot_ordering_witness :
    SR.snapInv (SR.applyOp (.runOp 1 [2, 5])
      ⟨[(1, ⟨1, some 7, 0, none, some 0⟩)], [.checkin 9], []⟩).1 :=
  C9_snapshot_ordering (.runOp 1 [2, 5])
    ⟨[(1, ⟨1, some 7, 0, none, some 0⟩)], [.checkin 9], []⟩
    (snapInvB_snapInv _ (by decide))
